import Mathlib

/-!
# Verification of the Blizzard 2.1 ETL core

A shallow embedding, in Lean 4, of the core data model and operations of the
Blizzard IRS-990 ETL pipeline (`src/etl/transformer.py`, `src/etl/loader.py`,
`src/repeating_groups/detector.py`, `src/repeating_groups/nested_detector.py`,
`src/xml/parser.py`), together with theorems settling claims about its
natural-language specification.

Modelling conventions:
* XML documents are ordered trees of elements carrying a local name, optional
  text, and attributes.  Namespace prefixes are erased: the code's locators
  rewrite every query into a namespace-agnostic `local-name()` form (or try
  prefix variants that bind the same elements), so in this model the
  namespace-variant query attempts coincide with the local-name attempt.
* Python `None` is modelled by `Option`; `str` by `String`; parsed numeric
  values by `ℚ` (only parsing success and the parsed value matter to the
  claims, not floating-point rounding).
* Python `dict`s are association lists with insertion-order iteration and
  in-place value update, as in CPython 3.7+.
* Database tables are in-memory lists of rows; SQL check-then-update/insert
  and `ON CONFLICT ... DO UPDATE` become explicit functions on those lists;
  `RETURNING group_id` for a serial column becomes an explicit counter in the
  store.  `execute_values` emits one multi-row `INSERT ... ON CONFLICT DO
  UPDATE` statement per batch of `batch_size` rows; within one such statement
  PostgreSQL raises a cardinality violation ("ON CONFLICT DO UPDATE command
  cannot affect row a second time") if two proposed rows share the conflict
  key, and any such error aborts the document's transaction.  This is
  modelled by chunking the incoming rows, checking each chunk for duplicate
  composite keys (an error otherwise), and folding the upserts of a valid
  chunk (with all keys distinct, the multi-row statement and the sequential
  fold store the same rows).
* String helpers (`lower`, `strip`, `startswith`, containment) are defined
  over the underlying character lists so that every definition evaluates by
  kernel reduction.
-/

namespace Blizzard

/-! ## String helpers -/

/-- Python `str.lower()` (ASCII-relevant part). -/
def strLower (s : String) : String := String.mk (s.toList.map Char.toLower)

/-- Python `str.strip()`: remove leading and trailing whitespace. -/
def strTrim (s : String) : String :=
  String.mk (((s.toList.dropWhile Char.isWhitespace).reverse.dropWhile
    Char.isWhitespace).reverse)

/-- Python `s.startswith(pre)`. -/
def startsWithB (s pre : String) : Bool := pre.toList.isPrefixOf s.toList

/-- Helper for substring containment on character lists. -/
def hasSubAux : List Char → List Char → Bool
  | l, pat =>
    if pat.isPrefixOf l then true
    else
      match l with
      | [] => false
      | _ :: t => hasSubAux t pat

/-- Python `pat in s` (substring containment). -/
def hasSubstr (s pat : String) : Bool := hasSubAux s.toList pat.toList

/-- Split a character list at every occurrence of `sep` (Python `str.split`). -/
def splitOnChar (sep : Char) (cs : List Char) : List (List Char) :=
  cs.foldr
    (fun c acc =>
      match acc with
      | a :: r => if c = sep then [] :: a :: r else (c :: a) :: r
      | [] => [[c]])
    [[]]

/-- Numeric value of a list of ASCII digit characters (most significant first). -/
def natOfDigits (cs : List Char) : Nat :=
  cs.foldl (fun n c => 10 * n + (c.toNat - 48)) 0

/-- Python `int(s)`: optional sign followed by at least one digit; anything
else raises `ValueError`, modelled as `none`. -/
def toIntOpt (s : String) : Option Int :=
  match s.toList with
  | [] => none
  | c :: rest =>
    if c = '-' then
      if rest ≠ [] ∧ rest.all Char.isDigit then some (-(natOfDigits rest : Int)) else none
    else if c = '+' then
      if rest ≠ [] ∧ rest.all Char.isDigit then some ((natOfDigits rest : Int)) else none
    else if (c :: rest).all Char.isDigit then some ((natOfDigits (c :: rest) : Int)) else none

/-! ## Python dict as an ordered association list -/

/-- `d[k] = v` on a Python dict: update the value in place if the key exists
(keeping its position), otherwise append the new key at the end. -/
def dictInsert {κ α : Type} [DecidableEq κ] : List (κ × α) → κ → α → List (κ × α)
  | [], k, v => [(k, v)]
  | (k', v') :: rest, k, v =>
    if k = k' then (k, v) :: rest else (k', v') :: dictInsert rest k v

/-- Building a counting dict (`d[k] = d.get(k, 0) + 1`). -/
def bumpCount {κ : Type} [DecidableEq κ] : List (κ × Nat) → κ → List (κ × Nat)
  | [], k => [(k, 1)]
  | (k', n) :: rest, k =>
    if k = k' then (k', n + 1) :: rest else (k', n) :: bumpCount rest k

/-- Keep the first occurrence of every element (Python dict-key dedup order). -/
def dedupAux : List String → List String → List String
  | [], _ => []
  | x :: xs, seen => if seen.contains x then dedupAux xs seen else x :: dedupAux xs (x :: seen)

/-- First-occurrence deduplication of a list of path strings. -/
def dedupKeepFirst (l : List String) : List String := dedupAux l []

/-! ## Value conversion (`IRS990Transformer._convert_value`)

The transformer converts an extracted raw string into exactly one of four
typed slots; `src/etl/transformer.py`, lines 892-925. -/

/-- One EAV value row's four mutually exclusive typed slots
(`text_value`, `numeric_value`, `boolean_value`, `date_value`). -/
structure SlotVals where
  text : Option String
  numeric : Option ℚ
  boolean : Option Bool
  date : Option String
deriving Repr, DecidableEq

/-- Number of populated (non-null) typed slots in a value row. -/
def slotCount (s : SlotVals) : Nat :=
  (if s.text.isSome then 1 else 0) + (if s.numeric.isSome then 1 else 0) +
    (if s.boolean.isSome then 1 else 0) + (if s.date.isSome then 1 else 0)

/-- `float(s)` for the strings that can reach it in `_convert_value`: after
the `re.sub(r'[^\d.-]', '', value)` cleaning the string contains only digits,
`.` and `-`.  Python accepts an optional leading minus, at most one decimal
point and at least one digit; everything else raises `ValueError`, modelled
as `none`. -/
def parseDecimal (s : String) : Option ℚ :=
  let cs := s.toList
  let neg : Bool := match cs with | '-' :: _ => true | _ => false
  let t : List Char := match cs with | '-' :: rest => rest | _ => cs
  if t.contains '-' then none
  else
    let intPart := t.takeWhile (fun c => c ≠ '.')
    let rest := t.dropWhile (fun c => c ≠ '.')
    match rest with
    | [] =>
      if intPart ≠ [] ∧ intPart.all Char.isDigit then
        let q : ℚ := (natOfDigits intPart : ℚ)
        some (if neg then -q else q)
      else none
    | _ :: fracPart =>
      if fracPart.contains '.' then none
      else if (intPart ≠ [] ∨ fracPart ≠ []) ∧ intPart.all Char.isDigit
          ∧ fracPart.all Char.isDigit then
        let q : ℚ := (natOfDigits intPart : ℚ)
          + (natOfDigits fracPart : ℚ) / (10 : ℚ) ^ fracPart.length
        some (if neg then -q else q)
      else none

/-- `re.sub(r'[^\d.-]', '', value)`: strip every character that is not a
digit, a decimal point or a minus sign. -/
def cleanNumeric (v : String) : String :=
  String.mk (v.toList.filter (fun c => c.isDigit || c == '.' || c == '-'))

/-- The fixed truthy token set of `_convert_value`'s boolean branch. -/
def truthyTokens : List String := ["true", "yes", "1", "t", "y", "x"]

/-- `IRS990Transformer._convert_value(value, data_type)`.  A `data_type` of
`""` models Python `None`/empty; the function is total (conversion never
raises, it degrades to the text slot). -/
def convertValue (value dataType : String) : SlotVals :=
  if dataType = "" ∨ dataType = "text" then
    { text := some value, numeric := none, boolean := none, date := none }
  else if dataType = "numeric" then
    match parseDecimal (cleanNumeric value) with
    | some q => { text := none, numeric := some q, boolean := none, date := none }
    | none => { text := some value, numeric := none, boolean := none, date := none }
  else if dataType = "checkbox" ∨ dataType = "boolean" then
    { text := none, numeric := none,
      boolean := some (truthyTokens.contains (strLower value)), date := none }
  else if dataType = "date" then
    { text := none, numeric := none, boolean := none, date := some value }
  else
    { text := some value, numeric := none, boolean := none, date := none }

/-! ## XML documents -/

/-- An XML element: local name, optional text payload, attributes, children
in document order.  Namespace prefixes are erased (see module comment). -/
inductive XTree where
  | node (name : String) (text : Option String) (attrs : List (String × String))
      (children : List XTree)
deriving Repr

/-- Local name of an element. -/
def XTree.name : XTree → String | .node n _ _ _ => n

/-- Text payload of an element (`None` for no text). -/
def XTree.text : XTree → Option String | .node _ t _ _ => t

/-- Attributes of an element. -/
def XTree.attrs : XTree → List (String × String) | .node _ _ a _ => a

/-- Child elements in document order. -/
def XTree.children : XTree → List XTree | .node _ _ _ c => c

mutual
/-- All elements of a subtree in document (preorder) order, the element
itself included — the node set of the `//` axis. -/
def preorder : XTree → List XTree
  | .node n t a cs => .node n t a cs :: preorderList cs

/-- Preorder traversal of a forest. -/
def preorderList : List XTree → List XTree
  | [] => []
  | c :: cs => preorder c ++ preorderList cs
end

/-- `element.get(key)`: first attribute with the given name. -/
def getAttr (e : XTree) (key : String) : Option String :=
  (e.attrs.find? (fun p => p.1 == key)).map (·.2)

/-- Evaluate a location path (list of local-name steps): the first step uses
the descendant-or-self axis (`//name`), later steps are child steps.
Matches are returned in document order. -/
def selectPath (root : XTree) (segs : List String) : List XTree :=
  match segs with
  | [] => []
  | n :: rest =>
    let firstHits := (preorder root).filter (fun e => e.name == n)
    rest.foldl (fun acc seg => acc.flatMap (fun e => e.children.filter (fun c => c.name == seg)))
      firstHits

/-- The `get_text(patterns)` helper shared by `_extract_metadata` and
`_extract_organization_info`: for each pattern in order, if the pattern
matches and the first match has truthy (non-empty) text, return it stripped;
otherwise try the next pattern.  Returns `none` if nothing matches. -/
def getText (root : XTree) : List (List String) → Option String
  | [] => none
  | p :: ps =>
    match selectPath root p with
    | e :: _ =>
      match e.text with
      | some t => if t ≠ "" then some (strTrim t) else getText root ps
      | none => getText root ps
    | [] => getText root ps

/-- Positional path segment for the `i`-th sibling, as produced by lxml's
`getpath`: the bracketed 1-based index appears only when several siblings
share the local name. -/
def segFor (siblings : List XTree) (i : Nat) : String :=
  let c := siblings.getD i (XTree.node "" none [] [])
  let total := (siblings.filter (fun s => s.name == c.name)).length
  if 1 < total then
    let pos := ((siblings.take i).filter (fun s => s.name == c.name)).length + 1
    c.name ++ "[" ++ toString pos ++ "]"
  else c.name

mutual
/-- All `(getpath-style structural path, element)` pairs of a subtree in
document order, given the path of the subtree's root element. -/
def subtreePaths (selfPath : String) : XTree → List (String × XTree)
  | .node n t a cs => (selfPath, .node n t a cs) :: childSubtrees selfPath cs cs 0

/-- Paths of the elements below a parent, threading the full sibling list
for positional indexing. -/
def childSubtrees (parentPath : String) (allSibs : List XTree) :
    List XTree → Nat → List (String × XTree)
  | [], _ => []
  | c :: rest, i =>
    subtreePaths (parentPath ++ "/" ++ segFor allSibs i) c
      ++ childSubtrees parentPath allSibs rest (i + 1)
end

/-- Structural paths of every element of a document, keyed from the root
(`getroottree().getpath`). -/
def docPaths (docRoot : XTree) : List (String × XTree) :=
  subtreePaths ("/" ++ docRoot.name) docRoot

/-! ## Repeating-group detector (`src/repeating_groups/detector.py`)

Only `_validate_groups` is the subject of a claim; candidates are passed in
as `(element, name)` pairs exactly as `_identify_potential_groups` produces
them. -/

/-- `tuple(sorted(grandchildren_names))`: the "row shape" key used by
`_validate_groups`.  A sorted tuple compares equal exactly when the name
multisets are equal, so the key is modelled as a multiset. -/
def rowKey (c : XTree) : Multiset String := ↑(c.children.map XTree.name)

/-- The *set* of grandchild local names of one immediate child — the claim's
notion of an immediate child's row "shape". -/
def rowShape (c : XTree) : Finset String := (rowKey c).toFinset

/-- The `child_structure` counting dict of `_validate_groups`: how often each
row shape occurs among the immediate children. -/
def childStructure (e : XTree) : List (Multiset String × Nat) :=
  (e.children.map rowKey).foldl bumpCount []

/-- `RepeatingGroupDetector._validate_groups`: keep a candidate only if it
has children and some row-shape key occurs more than once. -/
def validateGroups (gs : List (XTree × String)) : List (XTree × String) :=
  gs.filter (fun g =>
    !g.1.children.isEmpty && (childStructure g.1).any (fun p => decide (1 < p.2)))

/-! ## Group hierarchy (`src/repeating_groups/nested_detector.py`)

`build_group_hierarchy` works on the `getpath` strings of the confirmed
groups; the dict `group_paths` deduplicates them keeping first-occurrence
order, and for each path picks the longest other path `p` (strictly
increasing scan) with `child_path.startswith(p + "/")`. -/

/-- The inner scan of `build_group_hierarchy` for one child path: fold over
all group paths keeping the best `(parent, parent_len)` so far. -/
def findParentOf (keys : List String) (child : String) : Option String × Nat :=
  keys.foldl
    (fun (acc : Option String × Nat) path =>
      if path = child ∨ path.length ≤ acc.2 then acc
      else if startsWithB child (path ++ "/") then (some path, path.length)
      else acc)
    (none, 0)

/-- `build_group_hierarchy`, as a map child-path ↦ parent-path (pairs in
group order; children with no parent are absent). -/
def buildGroupHierarchy (paths : List String) : List (String × String) :=
  let keys := dedupKeepFirst paths
  keys.filterMap (fun child =>
    match (findParentOf keys child).1 with
    | some p => some (child, p)
    | none => none)

/-! ## Concordance registry (`IRS990Transformer._load_concordance`) -/

/-- A concordance field entry as stored in `self.tables[...][rel]`. -/
structure FieldInfo where
  var_name : String
  field_id : Nat
  xpath : String
  data_type : String
deriving Repr, DecidableEq

/-- One target table's `{'ONE': [...], 'MANY': [...]}` buckets. -/
structure TableFields where
  one : List FieldInfo
  many : List FieldInfo
deriving Repr, DecidableEq

/-- The transformer's in-memory concordance state (`self.field_ids`,
`self.data_types`, `self.tables`, `self.field_loaded`). -/
structure TransformerState where
  field_ids : List (String × Nat)
  data_types : List (String × String)
  tables : List (String × TableFields)
  field_loaded : Bool
deriving Repr, DecidableEq

/-- A parsed tabular concordance source: column names and rows of cells
aligned with the columns.  A `none` cell models a pandas `NaN`. -/
structure CsvFile where
  columns : List String
  rows : List (List (Option String))
deriving Repr, DecidableEq

/-- `row[col] if col in row and pd.notna(row[col]) else None`. -/
def getCell (cols : List String) (row : List (Option String)) (col : String) :
    Option String :=
  match cols.findIdx? (fun c => c == col) with
  | some i => row.getD i none
  | none => none

/-- Append a field entry to a table's ONE or MANY bucket, creating the table
entry if needed. -/
def addTableField (st : TransformerState) (table rel : String) (fi : FieldInfo) :
    TransformerState :=
  let tf := (st.tables.lookup table).getD ⟨[], []⟩
  let tf := if rel = "MANY" then { tf with many := tf.many ++ [fi] }
            else { tf with one := tf.one ++ [fi] }
  { st with tables := dictInsert st.tables table tf }

/-- Processing of one concordance row (the loop body of `_load_concordance`),
threading `(state, next field id)`. -/
def concordanceStep (cols : List String) (varCol xpathCol typeCol tableCol relCol : String)
    (acc : TransformerState × Nat) (row : List (Option String)) :
    TransformerState × Nat :=
  let (st, fid) := acc
  let varName := getCell cols row varCol
  let xpath := getCell cols row xpathCol
  let dataType := (getCell cols row typeCol).getD "text"
  let rdbTable := (getCell cols row tableCol).getD "filing_values"
  let relationship := (getCell cols row relCol).getD "ONE"
  match varName, xpath with
  | some v, some x =>
    if v = "" ∨ x = "" then acc
    else
      let st := { st with field_ids := dictInsert st.field_ids v fid,
                          data_types := dictInsert st.data_types v dataType }
      let st := if rdbTable ≠ "" ∧ rdbTable ≠ "filing_values" then
                  addTableField st rdbTable relationship ⟨v, fid, x, dataType⟩
                else st
      (st, fid + 1)
  | _, _ => acc

/-- `IRS990Transformer._load_concordance`.  `none` models a missing source
file (the `os.path.exists` check fails and a `ConcordanceError` is raised);
any other failure inside the `try` block would also surface as a
`ConcordanceError`, but reading a present, well-formed tabular file raises
nothing — rows without the required cells are silently skipped. -/
def loadConcordance (file : Option CsvFile) : Except String TransformerState :=
  match file with
  | none => .error "Concordance file not found"
  | some csv =>
    let varCol := if csv.columns.contains "variable_name" then "variable_name" else "VAR_NAME"
    let xpathCol := if csv.columns.contains "xpath" then "xpath" else "XPATH"
    let typeCol := if csv.columns.contains "data_type_simple" then "data_type_simple"
                   else "DATA_TYPE_SIMPLE"
    let tableCol := if csv.columns.contains "rdb_table" then "rdb_table" else "DATABASE_TABLE"
    let relCol := if csv.columns.contains "rdb_relationship" then "rdb_relationship"
                  else "RELATIONSHIP"
    let init : TransformerState × Nat := (⟨[], [], [], false⟩, 1)
    let res := csv.rows.foldl (concordanceStep csv.columns varCol xpathCol typeCol tableCol relCol)
      init
    .ok { res.1 with field_loaded := true }

/-! ## Metadata extraction (`IRS990Transformer._extract_metadata`)

Each `get_text` pattern list is modelled by the corresponding local-name
step lists; the `irs:`/`default:` prefixed variants resolve the same
elements once namespaces are erased, so they appear as repeated entries. -/

/-- XPath patterns used to locate the EIN. -/
def einPatterns : List (List String) :=
  [["EIN"], ["ReturnHeader", "Filer", "EIN"], ["ReturnHeader", "Filer", "EIN"]]

/-- XPath patterns used to locate the tax-period end date. -/
def taxPeriodPatterns : List (List String) :=
  [["TaxPeriodEndDt"], ["ReturnHeader", "TaxPeriodEndDt"], ["ReturnHeader", "TaxPeriodEndDt"]]

/-- XPath patterns used to locate the return type. -/
def formTypePatterns : List (List String) :=
  [["ReturnTypeCd"], ["ReturnHeader", "ReturnTypeCd"], ["ReturnHeader", "ReturnTypeCd"]]

/-- XPath patterns used to locate the submission timestamp. -/
def submissionPatterns : List (List String) :=
  [["ReturnTs"], ["ReturnHeader", "ReturnTs"], ["ReturnHeader", "ReturnTs"]]

/-- `tax_period.split('-')[0]`. -/
def takeBeforeDash (s : String) : String :=
  String.mk (s.toList.takeWhile (fun c => c ≠ '-'))

/-- The metadata dictionary produced per document. -/
structure Metadata where
  filing_id : String
  ein : String
  tax_period : String
  form_type : String
  form_version : String
  tax_year : Option Int
  submission_date : Option String
  object_id : String
deriving Repr, DecidableEq

/-- `IRS990Transformer._extract_metadata`: the three required fields raise
`XMLProcessingError` when missing (or located as an empty string, which is
falsy in Python); `filing_id = f"{ein}_{tax_period}_{form_type}"`. -/
def extractMetadata (root : XTree) (fileName : String) : Except String Metadata :=
  let ein := (getText root einPatterns).getD ""
  if ein = "" then .error "EIN not found in XML"
  else
    let taxPeriod := (getText root taxPeriodPatterns).getD ""
    if taxPeriod = "" then .error "Tax period not found in XML"
    else
      let formType := (getText root formTypePatterns).getD ""
      if formType = "" then .error "Form type not found in XML"
      else
        let formVersion := (getAttr root "returnVersion").getD "Unknown"
        let taxYear := toIntOpt (takeBeforeDash taxPeriod)
        let submissionDate := getText root submissionPatterns
        let filingId := ein ++ "_" ++ taxPeriod ++ "_" ++ formType
        .ok ⟨filingId, ein, taxPeriod, formType, formVersion, taxYear, submissionDate, fileName⟩

/-! ## Organization extraction (`IRS990Transformer._extract_organization_info`) -/

/-- The organization record produced per document (`country` is always a
string: the located foreign country code or the `'US'` default). -/
structure OrgInfo where
  ein : String
  name : Option String
  address_line1 : Option String
  address_line2 : Option String
  city : Option String
  state : Option String
  zip : Option String
  country : String
  website : Option String
deriving Repr, DecidableEq

/-- Patterns for the foreign-address country code. -/
def foreignCountryPatterns : List (List String) := [["ForeignAddress", "CountryCd"]]

/-- `IRS990Transformer._extract_organization_info`. -/
def extractOrganizationInfo (root : XTree) (ein : String) : OrgInfo :=
  let orgName := getText root
    [["BusinessNameLine1Txt"],
     ["ReturnHeader", "Filer", "Name", "BusinessNameLine1Txt"],
     ["ReturnHeader", "Filer", "Name", "BusinessNameLine1Txt"],
     ["ReturnHeader", "Filer", "BusinessName", "BusinessNameLine1Txt"]]
  let addressLine1 := getText root
    [["USAddress", "AddressLine1Txt"], ["ForeignAddress", "AddressLine1Txt"]]
  let addressLine2 := getText root
    [["USAddress", "AddressLine2Txt"], ["ForeignAddress", "AddressLine2Txt"]]
  let city := getText root [["USAddress", "CityNm"], ["ForeignAddress", "CityNm"]]
  let state := getText root [["USAddress", "StateAbbreviationCd"]]
  let zipCode := getText root [["USAddress", "ZIPCd"]]
  let country :=
    match getText root foreignCountryPatterns with
    | some c => if c = "" then "US" else c
    | none => "US"
  let website := getText root [["WebsiteAddressTxt"]]
  ⟨ein, orgName, addressLine1, addressLine2, city, state, zipCode, country, website⟩

/-! ## Scalar filing values (`IRS990Transformer._extract_filing_values`) -/

/-- One `filing_values` row produced by the transformer. -/
structure FilingValueRec where
  filing_id : String
  field_id : Nat
  slots : SlotVals
deriving Repr, DecidableEq

/-- Is the variable listed in any table's MANY bucket (skipped during scalar
extraction)? -/
def isManyField (st : TransformerState) (var : String) : Bool :=
  st.tables.any (fun t => t.2.many.any (fun fi => fi.var_name == var))

/-- The xpath lookup of `_extract_value_from_xml`: scan tables in insertion
order, within each table ONE before MANY, and take the first entry for the
variable. -/
def firstFieldXpath : List (String × TableFields) → String → Option String
  | [], _ => none
  | (_, tf) :: rest, v =>
    match (tf.one ++ tf.many).find? (fun fi => fi.var_name == v) with
    | some fi => some fi.xpath
    | none => firstFieldXpath rest v

/-- Drop a namespace prefix from one path step (`irs:EIN` ↦ `EIN`), as the
locator's `local-name()` rewrite does. -/
def dropNsStep (seg : String) : String :=
  match (splitOnChar ':' seg.toList).getLast? with
  | some last => if (splitOnChar ':' seg.toList).length > 1 then String.mk last else seg
  | none => seg

/-- Evaluate a concordance location expression: split on `/`, drop empty
segments (absolute/`//` slashes) and namespace prefixes, then select.  This
is the namespace-agnostic variation of `_create_xpath_variations`, which
subsumes the original expression and the prefix-substituted variants once
namespaces are erased. -/
def evalXPathStr (root : XTree) (expr : String) : List XTree :=
  let segs := ((splitOnChar '/' expr.toList).map String.mk).filter (fun s => s ≠ "")
  selectPath root (segs.map dropNsStep)

/-- `IRS990Transformer._extract_value_from_xml`: locate the variable's
expression and return the first match's stripped text if truthy. -/
def extractValueFromXml (st : TransformerState) (root : XTree) (var : String) :
    Option String :=
  match firstFieldXpath st.tables var with
  | none => none
  | some expr =>
    match evalXPathStr root expr with
    | e :: _ =>
      match e.text with
      | some t => if t ≠ "" then some (strTrim t) else none
      | none => none
    | [] => none

/-- `IRS990Transformer._extract_filing_values`: one row per ONE-cardinality
concordance variable whose value is found; a missing value yields no row. -/
def extractFilingValues (st : TransformerState) (root : XTree) (filingId : String) :
    List FilingValueRec :=
  if !st.field_loaded then []
  else
    st.field_ids.filterMap (fun vf =>
      if isManyField st vf.1 then none
      else
        match extractValueFromXml st root vf.1 with
        | some v =>
          some ⟨filingId, vf.2, convertValue v ((st.data_types.lookup vf.1).getD "text")⟩
        | none => none)

/-! ## Repeating groups in the transformer
(`IRS990Transformer._detect_repeating_groups`, `_guess_table_name`,
`_get_fields_for_table`, `_extract_value_from_element`,
`_process_repeating_groups`) -/

/-- Does an element have at least two same-named children?  The loop builds a
name-count dict and fires on any count above one. -/
def hasRepeatingChildren (e : XTree) : Bool :=
  ((e.children.map XTree.name).foldl bumpCount []).any (fun p => decide (1 < p.2))

/-- `_detect_repeating_groups`: for each name pattern (`Grp`, `Group`,
`Table`, plus prefixed `Grp` variants that bind the same elements), collect
every matching element with repeating children into a dict keyed by its
structural path, mapped to its child list.  The `//` axis is absolute, so the
search always runs over the whole document regardless of the `ReturnData`
scoping performed by the caller. -/
def detectRepeatingGroups (docRoot : XTree) : List (String × List XTree) :=
  let pats := ["Grp", "Group", "Table", "Grp", "Grp"]
  let allNodes := docPaths docRoot
  pats.foldl
    (fun acc pat =>
      (allNodes.filter (fun pe => hasSubstr pe.2.name pat)).foldl
        (fun acc2 pe =>
          if hasRepeatingChildren pe.2 then dictInsert acc2 pe.1 pe.2.children else acc2)
        acc)
    []

/-- The direct path-substring → table-name mapping of `_guess_table_name`
(dict literal order). -/
def guessTableNameMappings : List (String × String) :=
  [("OfficerDirectorTrustee", "compensation_officers"),
   ("CompensationHighest", "compensation_highest"),
   ("GrantsToDomesticOrg", "grants_domestic"),
   ("GrantsToForeignOrg", "foreign_org_grants"),
   ("ForeignActivities", "foreign_activities"),
   ("ExpenseOther", "expenses_other"),
   ("ProgSrvcAccomplishment", "program_service_accomplishment"),
   ("RelatedOrgInfo", "related_org_info"),
   ("UnrelatedBusiness", "unrelated_business"),
   ("SupplementalInfo", "supplemental_info"),
   ("DisregardedEntityGrp", "disregarded_entities"),
   ("LandBuildingEquipmentGrp", "land_buildings_equipment"),
   ("InvestmentIncomeGrp", "investment_income"),
   ("OtherRevenueGrp", "revenue_misc"),
   ("FunctionalExpenseGrp", "functional_expenses")]

/-- Collapse runs of underscores to a single underscore. -/
def collapseUnderscores (cs : List Char) : List Char :=
  cs.foldr (fun c acc => if c = '_' ∧ acc.headD ' ' = '_' then acc else c :: acc) []

/-- `re.sub(r'[^a-zA-Z0-9]', '_', path).lower()`, collapse `_` runs, strip
leading/trailing `_`. -/
def cleanPathName (s : String) : String :=
  let a := s.toList.map (fun c => if c.isAlphanum then c.toLower else '_')
  let b := collapseUnderscores a
  String.mk ((b.dropWhile (fun c => c = '_')).reverse.dropWhile (fun c => c = '_')).reverse

/-- Python `s[-50:]`. -/
def lastN (n : Nat) (s : String) : String :=
  String.mk (s.toList.drop (s.toList.length - n))

/-- `IRS990Transformer._guess_table_name`: direct substring mappings first,
then keyword fallbacks, else a generic `repeating_<normalized>` name.  Never
returns the empty string. -/
def guessTableNameTr (groupPath : String) : String :=
  match guessTableNameMappings.find? (fun kv => hasSubstr groupPath kv.1) with
  | some kv => kv.2
  | none =>
    let cleanName := cleanPathName groupPath
    if hasSubstr groupPath "PartVII" || hasSubstr groupPath "Compensation"
        || hasSubstr groupPath "Officer" then "compensation_officers"
    else if hasSubstr groupPath "Expense" then "expenses_other"
    else if hasSubstr groupPath "Grant" || hasSubstr groupPath "Foreign" then
      "foreign_org_grants"
    else if hasSubstr groupPath "Supplemental" || hasSubstr groupPath "Information" then
      "supplemental_info"
    else "repeating_" ++ lastN 50 cleanName

/-- The `common_fields` templates of `_get_fields_for_table`:
`(name, path, type)` per well-known table. -/
def commonFieldsFor (table : String) : Option (List (String × String × String)) :=
  if table = "compensation_officers" then some
    [("PersonNm", "./PersonNm", "text"),
     ("TitleTxt", "./TitleTxt", "text"),
     ("OfficerInd", "./OfficerInd", "boolean"),
     ("ReportableCompFromOrgAmt", "./ReportableCompFromOrgAmt", "numeric"),
     ("ReportableCompFromRltdOrgAmt", "./ReportableCompFromRltdOrgAmt", "numeric")]
  else if table = "expenses_other" then some
    [("Desc", "./Desc", "text"),
     ("TotalAmt", "./TotalAmt", "numeric"),
     ("ProgramServicesAmt", "./ProgramServicesAmt", "numeric"),
     ("MgmtAndGeneralAmt", "./MgmtAndGeneralAmt", "numeric"),
     ("FundraisingAmt", "./FundraisingAmt", "numeric")]
  else if table = "foreign_org_grants" then some
    [("RegionTxt", "./RegionTxt", "text"),
     ("PurposeOfGrantTxt", "./PurposeOfGrantTxt", "text"),
     ("CashGrantAmt", "./CashGrantAmt", "numeric"),
     ("NonCashAssistanceAmt", "./NonCashAssistanceAmt", "numeric"),
     ("MannerOfCashDisbursementTxt", "./MannerOfCashDisbursementTxt", "text")]
  else if table = "supplemental_info" then some
    [("FormAndLineReferenceDesc", "./FormAndLineReferenceDesc", "text"),
     ("ExplanationTxt", "./ExplanationTxt", "text")]
  else none

/-- The `default_fields` templates for unknown tables. -/
def defaultFieldSpecs : List (String × String × String) :=
  [("Value", ".", "text"),
   ("Amount", "./Amt", "numeric"),
   ("Description", "./Desc", "text"),
   ("Name", "./Nm", "text"),
   ("Text", "./Txt", "text")]

/-- `IRS990Transformer._get_fields_for_table`: return the concordance MANY
fields when present; otherwise mint generic field definitions (ids from
`len(self.field_ids) + 1`), registering them in the in-memory maps and
skipping variables already present. -/
def getFieldsForTable (st : TransformerState) (table : String) :
    List FieldInfo × TransformerState :=
  match st.tables.lookup table with
  | some tf =>
    if tf.many ≠ [] then (tf.many, st) else
      getFieldsForTableGeneric st table
  | none => getFieldsForTableGeneric st table
where
  /-- The generic-field minting path. -/
  getFieldsForTableGeneric (st : TransformerState) (table : String) :
      List FieldInfo × TransformerState :=
    let specs := (commonFieldsFor table).getD defaultFieldSpecs
    let res := specs.foldl
      (fun (acc : List FieldInfo × TransformerState × Nat) spec =>
        let (fields, st, nid) := acc
        let varName := table ++ "_" ++ spec.1
        if (st.field_ids.lookup varName).isSome then acc
        else
          let fi : FieldInfo := ⟨varName, nid, spec.2.1, spec.2.2⟩
          (fields ++ [fi],
           { st with field_ids := dictInsert st.field_ids varName nid,
                     data_types := dictInsert st.data_types varName spec.2.2 },
           nid + 1))
      ([], st, st.field_ids.length + 1)
    (res.1, res.2.1)

/-- First element of a list whose (truthy) text exists, stripped — the shape
shared by the xpath attempts of `_extract_value_from_element` (only the first
match of an attempt is examined). -/
def firstTextOf (es : List XTree) : Option String :=
  match es with
  | e :: _ =>
    match e.text with
    | some t => if t ≠ "" then some (strTrim t) else none
    | none => none
  | [] => none

/-- `IRS990Transformer._extract_value_from_element`: try direct children by
local name (scanning until one has truthy text), then descendant queries by
exact local name (the namespace-prefixed and `local-name()` attempts coincide
here), then descendants whose local name contains the field name
(`ends-with` is unsupported in XPath 1.0 and always skipped). -/
def extractValueFromElement (element : XTree) (fieldName : String) : Option String :=
  match element.children.find?
      (fun c => c.name == fieldName && !(c.text.getD "") == "") with
  | some c => some (strTrim (c.text.getD ""))
  | none =>
    let exact := (preorderList element.children).filter (fun e => e.name == fieldName)
    match firstTextOf exact with
    | some v => some v
    | none =>
      let partial_ :=
        (preorderList element.children).filter (fun e => hasSubstr e.name fieldName)
      firstTextOf partial_

/-- One `repeating_groups` record produced by the transformer.  The
transformer never sets `parent_group_id`; the loader reads it with `.get`,
hence the `Option` field defaulting to `none`. -/
structure RGroupRec where
  group_id : Nat
  filing_id : String
  name : String
  xpath : String
  parent_group_id : Option Nat
deriving Repr, DecidableEq

/-- One `repeating_group_values` record produced by the transformer: only a
transform-local group id, a field id and the typed slots — no instance
index. -/
structure GroupValueRec where
  group_id : Nat
  field_id : Nat
  slots : SlotVals
deriving Repr, DecidableEq

/-- The inner two loops of `_process_repeating_groups`: for each row element
of the group and each expected field, emit a value record when extraction
succeeds. -/
def processGroupRows (tableFields : List FieldInfo) (groupId : Nat)
    (elements : List XTree) : List GroupValueRec :=
  elements.flatMap (fun el =>
    tableFields.filterMap (fun fi =>
      match extractValueFromElement el fi.var_name with
      | some v => some ⟨groupId, fi.field_id, convertValue v fi.data_type⟩
      | none => none))

/-- `IRS990Transformer._process_repeating_groups`: detect groups, give each a
sequential transform-local `group_id` starting at 1, and emit its value
records.  (The `ReturnData` scoping in the source has no effect on detection
because the detection patterns use the absolute `//` axis.) -/
def processRepeatingGroups (st : TransformerState) (docRoot : XTree)
    (filingId : String) :
    List RGroupRec × List GroupValueRec × TransformerState :=
  let detected := detectRepeatingGroups docRoot
  let res := detected.foldl
    (fun (acc : List RGroupRec × List GroupValueRec × TransformerState × Nat) g =>
      let (groups, gvals, st, gid) := acc
      let tableName := guessTableNameTr g.1
      if tableName = "" then acc
      else
        let fs := getFieldsForTable st tableName
        (groups ++ [⟨gid, filingId, tableName, g.1, none⟩],
         gvals ++ processGroupRows fs.1 gid g.2,
         fs.2, gid + 1))
    ([], [], st, 1)
  (res.1, res.2.1, res.2.2.1)

/-- The transformed result for one document (`_process_xml_file`'s returned
dictionary; the XML content hash is out of this model, no claim concerns
it). -/
structure ProcessedData where
  metadata : Metadata
  organization : OrgInfo
  filing_values : List FilingValueRec
  repeating_groups : List RGroupRec
  group_values : List GroupValueRec
deriving Repr, DecidableEq

/-- `IRS990Transformer._process_xml_file`: any exception raised while
processing (in particular the metadata `XMLProcessingError`) is caught and
`None` is returned — no partial result.  Metadata extraction precedes every
state mutation, so on failure the transformer state is unchanged. -/
def processXmlFile (st : TransformerState) (root : XTree) (fileName : String) :
    Option ProcessedData × TransformerState :=
  match extractMetadata root fileName with
  | .error _ => (none, st)
  | .ok md =>
    let organization := extractOrganizationInfo root md.ein
    let filingValues := extractFilingValues st root md.filing_id
    let res := processRepeatingGroups st root md.filing_id
    (some ⟨md, organization, filingValues, res.1, res.2.1⟩, res.2.2)

/-- `IRS990Transformer.transform`: process a batch of documents, collecting
the successful results and skipping (while logging) the failures. -/
def transformBatch (st : TransformerState) (docs : List (XTree × String)) :
    List ProcessedData × TransformerState :=
  docs.foldl
    (fun (acc : List ProcessedData × TransformerState) d =>
      match processXmlFile acc.2 d.1 d.2 with
      | (some pd, st') => (acc.1 ++ [pd], st')
      | (none, st') => (acc.1, st'))
    ([], st)

/-! ## EAV loader (`src/etl/loader.py`, `PostgreSQLLoader`)

Tables are lists of rows; `organizations` is keyed by `ein`, `filings` by
`filing_id`, `filing_values` by `(filing_id, field_id)`,
`repeating_group_values` by `(group_id, field_id)` — exactly the keys the SQL
`WHERE`/`ON CONFLICT` clauses use.  `repeating_groups.group_id` is a serial
column modelled by the store's `next_group_id` counter. -/

/-- A row of the `organizations` table. -/
structure OrgRow where
  ein : String
  name : Option String
  address_line1 : Option String
  address_line2 : Option String
  city : Option String
  state : Option String
  zip : Option String
  country : Option String
  website : Option String
deriving Repr, DecidableEq

/-- The COALESCE-merge of `_load_organization`'s UPDATE: every incoming
attribute only overwrites when non-null (`country` is never null coming from
the transformer). -/
def mergeOrg (old : OrgRow) (inc : OrgInfo) : OrgRow :=
  { ein := old.ein
    name := inc.name <|> old.name
    address_line1 := inc.address_line1 <|> old.address_line1
    address_line2 := inc.address_line2 <|> old.address_line2
    city := inc.city <|> old.city
    state := inc.state <|> old.state
    zip := inc.zip <|> old.zip
    country := some inc.country
    website := inc.website <|> old.website }

/-- `PostgreSQLLoader._load_organization`: check by `ein`, then COALESCE
UPDATE or INSERT (`country` defaults to `'US'` on insert; the transformer
always supplies it). -/
def loadOrganization (orgs : List OrgRow) (inc : OrgInfo) :
    Except String (List OrgRow) :=
  if inc.ein = "" then .error "Missing EIN in organization data"
  else if orgs.any (fun r => r.ein == inc.ein) then
    .ok (orgs.map (fun r => if r.ein == inc.ein then mergeOrg r inc else r))
  else
    .ok (orgs ++ [⟨inc.ein, inc.name, inc.address_line1, inc.address_line2, inc.city,
      inc.state, inc.zip, some inc.country, inc.website⟩])

/-- A row of the `filings` table. -/
structure FilingRow where
  filing_id : String
  object_id : String
  ein : String
  tax_period : String
  form_type : String
  form_version : String
  tax_year : Option Int
  submission_date : Option String
deriving Repr, DecidableEq

/-- `PostgreSQLLoader._load_filing_record`: check by `filing_id`; the UPDATE
branch sets `object_id`, `form_version` and `tax_year` unconditionally (no
COALESCE) and touches no other column; the INSERT branch writes all
columns. -/
def loadFilingRecord (filings : List FilingRow) (md : Metadata) :
    Except String (List FilingRow) :=
  if md.filing_id = "" ∨ md.ein = "" then .error "Missing filing_id or EIN in metadata"
  else if filings.any (fun r => r.filing_id == md.filing_id) then
    .ok (filings.map (fun r =>
      if r.filing_id == md.filing_id then
        { r with object_id := md.object_id, form_version := md.form_version,
                 tax_year := md.tax_year }
      else r))
  else
    .ok (filings ++ [⟨md.filing_id, md.object_id, md.ein, md.tax_period, md.form_type,
      md.form_version, md.tax_year, md.submission_date⟩])

/-- A row of the `filing_values` table. -/
structure FVRow where
  filing_id : String
  field_id : Nat
  slots : SlotVals
deriving Repr, DecidableEq

/-- One `INSERT ... ON CONFLICT (filing_id, field_id) DO UPDATE SET ...`
upsert: last write wins on the composite key. -/
def upsertFV (rows : List FVRow) (v : FilingValueRec) : List FVRow :=
  if rows.any (fun r => r.filing_id == v.filing_id && r.field_id == v.field_id) then
    rows.map (fun r =>
      if r.filing_id == v.filing_id && r.field_id == v.field_id then
        { r with slots := v.slots }
      else r)
  else rows ++ [⟨v.filing_id, v.field_id, v.slots⟩]

/-- Batch slicing `for i in range(0, len(l), n): batch = l[i:i+n]` (`n ≥ 1`;
`range` rejects a zero step).  `cur` holds the current batch in reverse and
`k` its remaining capacity. -/
def chunksAux {α : Type} (n : Nat) : List α → List α → Nat → List (List α)
  | [], cur, _ => if cur.isEmpty then [] else [cur.reverse]
  | x :: xs, cur, 0 => cur.reverse :: chunksAux n xs [x] (n - 1)
  | x :: xs, cur, k + 1 => chunksAux n xs (x :: cur) k

/-- The batches of size `n` of a list, in order. -/
def chunksOf {α : Type} (n : Nat) (l : List α) : List (List α) :=
  match l with
  | [] => []
  | x :: xs => chunksAux n xs [x] (n - 1)

/-- One `execute_values` statement of `_load_filing_values`: a single
multi-row `INSERT ... ON CONFLICT (filing_id, field_id) DO UPDATE` for the
whole batch.  PostgreSQL raises a cardinality violation if two proposed rows
of one statement share the conflict key; otherwise the rows (with distinct
keys) upsert, which equals folding the single-row upserts. -/
def fvBatchStep (rows : List FVRow) (batch : List FilingValueRec) :
    Except String (List FVRow) :=
  if (batch.map (fun v => (v.filing_id, v.field_id))).Nodup then
    .ok (batch.foldl upsertFV rows)
  else .error "ON CONFLICT DO UPDATE command cannot affect row a second time"

/-- The per-batch statement loop of `_load_filing_values`: a statement error
aborts the loop (and, further up, rolls back the transaction). -/
def fvChunksFold : List (List FilingValueRec) → List FVRow →
    Except String (List FVRow)
  | [], rows => .ok rows
  | b :: bs, rows =>
    match fvBatchStep rows b with
    | .error e => .error e
    | .ok rows' => fvChunksFold bs rows'

/-- `PostgreSQLLoader._load_filing_values`: the incoming rows are sliced into
batches of `batchSize` (the loader default is 100, which is also
`execute_values`' own page size, so each batch is one statement) and each
batch is written by one multi-row upsert statement. -/
def loadFilingValues (batchSize : Nat) (rows : List FVRow)
    (incoming : List FilingValueRec) : Except String (List FVRow) :=
  fvChunksFold (chunksOf batchSize incoming) rows

/-- A row of the `repeating_groups` table (`group_id` store-assigned). -/
structure RGRow where
  group_id : Nat
  filing_id : String
  parent_group_id : Option Nat
  name : String
  xpath : String
deriving Repr, DecidableEq

/-- A row of the `repeating_group_values` table. -/
structure RGVRow where
  group_id : Nat
  field_id : Nat
  slots : SlotVals
deriving Repr, DecidableEq

/-- One `INSERT ... ON CONFLICT (group_id, field_id) DO UPDATE SET ...`
upsert on `repeating_group_values`. -/
def upsertRGV (rows : List RGVRow) (g fid : Nat) (slots : SlotVals) : List RGVRow :=
  if rows.any (fun r => r.group_id == g && r.field_id == fid) then
    rows.map (fun r =>
      if r.group_id == g && r.field_id == fid then { r with slots := slots } else r)
  else rows ++ [⟨g, fid, slots⟩]

/-- The relational store. -/
structure Store where
  organizations : List OrgRow
  filings : List FilingRow
  filing_values : List FVRow
  repeating_groups : List RGRow
  repeating_group_values : List RGVRow
  next_group_id : Nat
deriving Repr, DecidableEq

/-- One group-row INSERT of `_load_repeating_groups`: the store assigns the
serial `group_id`, and the client-id → store-id map is extended;
`parent_group_id` is written verbatim from the incoming record (it is *not*
remapped through the map). -/
def rgInsertStep (acc : Store × List (Nat × Nat)) (g : RGroupRec) :
    Store × List (Nat × Nat) :=
  let dbId := acc.1.next_group_id
  ({ acc.1 with
      repeating_groups := acc.1.repeating_groups
        ++ [⟨dbId, g.filing_id, g.parent_group_id, g.name, g.xpath⟩],
      next_group_id := dbId + 1 },
   dictInsert acc.2 g.group_id dbId)

/-- The prepared `batch_values` of one `_load_repeating_groups` batch: each
value's client group id is remapped through the captured map, and values
whose id is absent from the map are skipped (with a logged warning). -/
def rgvBatchValues (idMap : List (Nat × Nat)) (batch : List GroupValueRec) :
    List (Nat × Nat × SlotVals) :=
  batch.filterMap (fun v =>
    (idMap.lookup v.group_id).map (fun dbId => (dbId, v.field_id, v.slots)))

/-- One `execute_values` statement on `repeating_group_values` (skipped when
the prepared batch is empty): a cardinality violation if two prepared rows
share `(group_id, field_id)`, otherwise one multi-row upsert, which for
distinct keys equals folding the single-row upserts. -/
def rgvBatchStep (idMap : List (Nat × Nat)) (rows : List RGVRow)
    (batch : List GroupValueRec) : Except String (List RGVRow) :=
  let bv := rgvBatchValues idMap batch
  if bv.isEmpty then .ok rows
  else if (bv.map (fun t => (t.1, t.2.1))).Nodup then
    .ok (bv.foldl (fun rs t => upsertRGV rs t.1 t.2.1 t.2.2) rows)
  else .error "ON CONFLICT DO UPDATE command cannot affect row a second time"

/-- The per-batch statement loop over the group values. -/
def rgvChunksFold (idMap : List (Nat × Nat)) :
    List (List GroupValueRec) → List RGVRow → Except String (List RGVRow)
  | [], rows => .ok rows
  | b :: bs, rows =>
    match rgvBatchStep idMap rows b with
    | .error e => .error e
    | .ok rows' => rgvChunksFold idMap bs rows'

/-- `PostgreSQLLoader._load_repeating_groups`: insert each group row
capturing the client-id → store-id map, then write the values in batches of
`batchSize`, remapping each value's client group id through the map; a batch
whose prepared rows repeat a `(group_id, field_id)` key makes its statement
raise, aborting the load. -/
def loadRepeatingGroups (batchSize : Nat) (store : Store)
    (groups : List RGroupRec) (gvals : List GroupValueRec) :
    Except String Store :=
  if groups.isEmpty then .ok store
  else
    let ins := groups.foldl rgInsertStep (store, [])
    match rgvChunksFold ins.2 (chunksOf batchSize gvals)
        ins.1.repeating_group_values with
    | .error e => .error e
    | .ok rgv => .ok { ins.1 with repeating_group_values := rgv }

/-- `PostgreSQLLoader._load_filing`: one transaction per document — the
organization, filing, filing-value and repeating-group writes all land, or
(on any error, including a statement-level cardinality violation) none do
and the store is unchanged (rollback and `DatabaseError`), modelled by
returning `Except`. -/
def loadFiling (batchSize : Nat) (store : Store) (pd : ProcessedData) :
    Except String Store :=
  if pd.metadata.filing_id = "" then .error "Missing filing_id in metadata"
  else
    match loadOrganization store.organizations pd.organization with
    | .error e => .error e
    | .ok orgs =>
      match loadFilingRecord store.filings pd.metadata with
      | .error e => .error e
      | .ok filings =>
        match loadFilingValues batchSize store.filing_values pd.filing_values with
        | .error e => .error e
        | .ok fvs =>
          loadRepeatingGroups batchSize
            { store with organizations := orgs, filings := filings,
                         filing_values := fvs }
            pd.repeating_groups pd.group_values

/-- Is an `Except` result an error? -/
def isErrorE {ε α : Type} : Except ε α → Bool
  | .error _ => true
  | .ok _ => false

instance {ε α : Type} [DecidableEq ε] [DecidableEq α] : DecidableEq (Except ε α) :=
  fun a b =>
    match a, b with
    | .error e, .error f =>
      if h : e = f then isTrue (by subst h; rfl)
      else isFalse (by intro hh; injection hh; contradiction)
    | .error _, .ok _ => isFalse (fun hh => Except.noConfusion hh)
    | .ok _, .error _ => isFalse (fun hh => Except.noConfusion hh)
    | .ok x, .ok y =>
      if h : x = y then isTrue (by subst h; rfl)
      else isFalse (by intro hh; injection hh; contradiction)

/-! ## Specification-side helper functions

These are used only to state and prove properties; they introduce no
behaviour of their own. -/

/-- First value stored under a key in a counting dict (specification mirror
of Python dict lookup for the `bumpCount` dicts, whose keys are unique). -/
def countsVal {κ : Type} [DecidableEq κ] : List (κ × Nat) → κ → Option Nat
  | [], _ => none
  | (k', n) :: rest, k => if k = k' then some n else countsVal rest k

/-- The group rows that one `_load_repeating_groups` call appends, given the
store's next serial id. -/
def mkRGRows (n : Nat) : List RGroupRec → List RGRow
  | [] => []
  | g :: r => ⟨n, g.filing_id, g.parent_group_id, g.name, g.xpath⟩ :: mkRGRows (n + 1) r

/-- The client-id → store-id map captured by one `_load_repeating_groups`
call, given the store's next serial id and the map built so far. -/
def mkIdMap (n : Nat) (m : List (Nat × Nat)) : List RGroupRec → List (Nat × Nat)
  | [] => m
  | g :: r => mkIdMap (n + 1) (dictInsert m g.group_id n) r

/-- Composite-key list of a `filing_values` table. -/
def fvKeys (rows : List FVRow) : List (String × Nat) :=
  rows.map (fun r => (r.filing_id, r.field_id))

/-- Composite-key list of a `repeating_group_values` table. -/
def rgvKeys (rows : List RGVRow) : List (Nat × Nat) :=
  rows.map (fun r => (r.group_id, r.field_id))

/-! ## Concrete instances

Small concrete documents, states and stores used to evaluate the embedded
operations at specific inputs. -/

/-- A small complete filing document: header metadata, one scalar field, one
repeating group with two rows. -/
def wDoc : XTree :=
  .node "Return" none [("returnVersion", "2020v4.0")] [
    .node "ReturnHeader" none [] [
      .node "Filer" none [] [.node "EIN" (some "123456789") [] []],
      .node "TaxPeriodEndDt" (some "2020-12-31") [] [],
      .node "ReturnTypeCd" (some "990") [] []],
    .node "ReturnData" none [] [
      .node "RevX" (some "42") [] [],
      .node "Form990PartVIISectionAGrp" none [] [
        .node "Row" none [] [.node "PersonNm" (some "Alice") [] []],
        .node "Row" none [] [.node "PersonNm" (some "Bob") [] []]]]]

/-- A concordance state with one scalar (ONE) variable and one repeating
(MANY) variable. -/
def wState : TransformerState :=
  { field_ids := [("RevX", 7), ("PersonNm", 5)]
    data_types := [("RevX", "text"), ("PersonNm", "text")]
    tables := [("t990", ⟨[⟨"RevX", 7, "/Return/ReturnData/RevX", "text"⟩], []⟩),
               ("compensation_officers", ⟨[], [⟨"PersonNm", 5, "./PersonNm", "text"⟩]⟩)]
    field_loaded := true }

/-- A document with a foreign address. -/
def wDocForeign : XTree :=
  .node "Return" none [] [
    .node "ForeignAddress" none [] [.node "CountryCd" (some "CA") [] []]]

/-- A document with no metadata at all. -/
def wDocEmpty : XTree := .node "Empty" none [] []

/-- The empty store (serial group ids start at 1). -/
def emptyStore : Store := ⟨[], [], [], [], [], 1⟩

/-- A store whose serial group-id sequence is at 10. -/
def store10 : Store := ⟨[], [], [], [], [], 10⟩

/-- A validated candidate: two children with the same row shape. -/
def vG : XTree := .node "G" none [] [
  .node "R" none [] [.node "A" none [] []],
  .node "R" none [] [.node "A" none [] []]]

/-- A candidate with exactly one child. -/
def vB : XTree := .node "G" none [] [.node "R" none [] [.node "A" none [] []]]

/-- A candidate whose two children have distinct row shapes. -/
def vC : XTree := .node "G" none [] [
  .node "R" none [] [.node "A" none [] []],
  .node "S" none [] [.node "B" none [] []]]

/-- Two transformer-side group records, the second nested under the first by
transform-local id. -/
def c7Groups : List RGroupRec :=
  [⟨1, "f", "A", "/a", none⟩, ⟨2, "f", "B", "/a/b", some 1⟩]

/-- A stored filing row with a non-null `tax_year`. -/
def c9Fils : List FilingRow :=
  [⟨"f1", "o", "e1", "2020-12-31", "990", "v1", some 2020, none⟩]

/-- Incoming metadata for the same filing whose `tax_year` is absent (the
tax-period prefix does not parse as an integer). -/
def c9Md : Metadata := ⟨"f1", "e1", "x", "990", "v2", none, none, "o2"⟩

/-- A tabular source that lacks every required concordance column. -/
def csvNoCols : CsvFile := ⟨["foo"], [[some "x"]]⟩

/-- Organization record for the load-twice scenario. -/
def wOrg : OrgInfo := ⟨"e1", some "Org", none, none, none, none, none, "US", none⟩

/-- Metadata record for the load-twice scenario. -/
def wMd : Metadata := ⟨"f1", "e1", "2020-12-31", "990", "v", some 2020, none, "o"⟩

/-- A transformed result with one scalar value and no groups. -/
def wPd : ProcessedData := ⟨wMd, wOrg, [⟨"f1", 1, ⟨some "x", none, none, none⟩⟩], [], []⟩

/-- The store after loading `wPd` into the empty store (once or twice). -/
def wStore1 : Store :=
  ⟨[⟨"e1", some "Org", none, none, none, none, none, some "US", none⟩],
   [⟨"f1", "o", "e1", "2020-12-31", "990", "v", some 2020, none⟩],
   [⟨"f1", 1, ⟨some "x", none, none, none⟩⟩], [], [], 1⟩

/-- The scalar row extracted from `wDoc` under `wState`. -/
def wRow : FilingValueRec := ⟨"f", 7, ⟨some "42", none, none, none⟩⟩

/-- The MANY field list of the `compensation_officers` table in `wState`. -/
def wGFields : List FieldInfo := [⟨"PersonNm", 5, "./PersonNm", "text"⟩]

/-- The two row elements of the repeating group in `wDoc`. -/
def wGEls : List XTree :=
  [.node "Row" none [] [.node "PersonNm" (some "Alice") [] []],
   .node "Row" none [] [.node "PersonNm" (some "Bob") [] []]]

/-- The first group value emitted for `wGEls`. -/
def wGRow : GroupValueRec := ⟨9, 5, ⟨some "Alice", none, none, none⟩⟩

/-! # Theorems -/

/-! ## Helper lemmas on value conversion -/

/-- Every conversion result populates exactly one typed slot. -/
theorem slotCount_convertValue (v dt : String) : slotCount (convertValue v dt) = 1 := by
  unfold convertValue
  split
  · rfl
  · split
    · split <;> rfl
    · split
      · rfl
      · split
        · rfl
        · rfl

/-- Concrete evaluation of the spec's numeric example. -/
theorem parseDecimal_example : parseDecimal "1234.50" = some ((2469 : ℚ) / 2) := by
  have h : parseDecimal "1234.50" =
      some ((natOfDigits ['1', '2', '3', '4'] : ℚ)
        + (natOfDigits ['5', '0'] : ℚ) / (10 : ℚ) ^ (['5', '0'] : List Char).length) := rfl
  rw [h, (by decide : natOfDigits ['1', '2', '3', '4'] = 1234),
    (by decide : natOfDigits ['5', '0'] = 50)]
  norm_num

/-- C5: `convert(raw_text, data_type)` follows the per-type rules and never
raises (it is a total function): for `numeric`, the cleaned string (digits,
sign, decimal point) is parsed, `"1,234.50"` yields the number 1234.50 with
the text slot absent, and a parse failure stores the raw text with the
numeric slot absent; for `boolean`, the result is `true` exactly when the
lowercased value is in `{true, yes, 1, t, y, x}` and `false` otherwise; for
`date`, the value is stored verbatim. -/
theorem convert_value_per_type_rules :
    (∀ v : String, convertValue v "numeric" =
      match parseDecimal (cleanNumeric v) with
      | some q => ⟨none, some q, none, none⟩
      | none => ⟨some v, none, none, none⟩) ∧
    convertValue "1,234.50" "numeric" = ⟨none, some ((2469 : ℚ) / 2), none, none⟩ ∧
    (∀ v : String, convertValue v "boolean" =
      ⟨none, none, some (truthyTokens.contains (strLower v)), none⟩) ∧
    (∀ v : String, convertValue v "date" = ⟨none, none, none, some v⟩) := by
  refine ⟨fun v => ?_, ?_, fun v => ?_, fun v => ?_⟩
  · unfold convertValue
    rw [if_neg (by decide), if_pos rfl]
  · unfold convertValue
    rw [if_neg (by decide), if_pos rfl,
      (by decide : cleanNumeric "1,234.50" = "1234.50"), parseDecimal_example]
  · unfold convertValue
    rw [if_neg (by decide), if_neg (by decide), if_pos (by decide)]
  · unfold convertValue
    rw [if_neg (by decide), if_neg (by decide), if_neg (by decide), if_pos rfl]

/-- C3: every FilingValue and RepeatingGroupValue row the transformer
produces has exactly one non-null typed slot — conversion populates exactly
one of `{text, numeric, boolean, date}` for every input and declared type —
and a field whose value is absent from the document produces no row: every
emitted row arises from a successfully extracted value. -/
theorem exactly_one_typed_slot :
    (∀ v dt : String, slotCount (convertValue v dt) = 1) ∧
    (∀ (st : TransformerState) (root : XTree) (f : String) (r : FilingValueRec),
      r ∈ extractFilingValues st root f →
      ∃ var fid v, (var, fid) ∈ st.field_ids ∧ r.field_id = fid ∧
        extractValueFromXml st root var = some v ∧
        r.slots = convertValue v ((st.data_types.lookup var).getD "text") ∧
        slotCount r.slots = 1) ∧
    (∀ (fields : List FieldInfo) (gid : Nat) (els : List XTree) (r : GroupValueRec),
      r ∈ processGroupRows fields gid els →
      ∃ fi el v, fi ∈ fields ∧ el ∈ els ∧
        extractValueFromElement el fi.var_name = some v ∧
        r = ⟨gid, fi.field_id, convertValue v fi.data_type⟩ ∧
        slotCount r.slots = 1) := by
  refine ⟨slotCount_convertValue, ?_, ?_⟩
  · intro st root f r hr
    unfold extractFilingValues at hr
    split at hr
    · simp at hr
    · rw [List.mem_filterMap] at hr
      obtain ⟨⟨var, fid⟩, hmem, heq⟩ := hr
      split at heq
      · exact absurd heq (by simp)
      · split at heq
        · rename_i v hv
          refine ⟨var, fid, v, hmem, ?_, hv, ?_, ?_⟩ <;>
            simp only [Option.some.injEq] at heq <;> subst heq
          · rfl
          · rfl
          · exact slotCount_convertValue _ _
        · exact absurd heq (by simp)
  · intro fields gid els r hr
    unfold processGroupRows at hr
    rw [List.mem_flatMap] at hr
    obtain ⟨el, hel, hr⟩ := hr
    rw [List.mem_filterMap] at hr
    obtain ⟨fi, hfi, heq⟩ := hr
    split at heq
    · rename_i v hv
      simp only [Option.some.injEq] at heq
      subst heq
      exact ⟨fi, el, v, hfi, hel, hv, rfl, slotCount_convertValue _ _⟩
    · exact absurd heq (by simp)

/-- Witness for C3 at the concrete document `wDoc` and state `wState`. -/
theorem exactly_one_typed_slot_witness :
    (∃ var fid v, (var, fid) ∈ wState.field_ids ∧ wRow.field_id = fid ∧
      extractValueFromXml wState wDoc var = some v ∧
      wRow.slots = convertValue v ((wState.data_types.lookup var).getD "text") ∧
      slotCount wRow.slots = 1) ∧
    (∃ fi el v, fi ∈ wGFields ∧ el ∈ wGEls ∧
      extractValueFromElement el fi.var_name = some v ∧
      wGRow = ⟨9, fi.field_id, convertValue v fi.data_type⟩ ∧
      slotCount wGRow.slots = 1) :=
  ⟨exactly_one_typed_slot.2.1 wState wDoc "f" wRow (by decide),
   exactly_one_typed_slot.2.2 wGFields 9 wGEls wGRow (by decide)⟩

/-! ## C2: filing identity -/

/-- C2: `filing_id` is a pure function of exactly the three extracted
metadata fields — whenever metadata extraction succeeds, the filing id is
the employer id, tax period and form type joined by underscores; two
successful extractions agreeing on those three fields produce the same
filing id; and re-extracting the same document yields the same result. -/
theorem filing_id_pure_function :
    (∀ (root : XTree) (fn : String) (md : Metadata),
      extractMetadata root fn = .ok md →
      md.filing_id = md.ein ++ "_" ++ md.tax_period ++ "_" ++ md.form_type) ∧
    (∀ (r1 r2 : XTree) (f1 f2 : String) (m1 m2 : Metadata),
      extractMetadata r1 f1 = .ok m1 → extractMetadata r2 f2 = .ok m2 →
      m1.ein = m2.ein → m1.tax_period = m2.tax_period → m1.form_type = m2.form_type →
      m1.filing_id = m2.filing_id) ∧
    (∀ (root : XTree) (fn : String),
      extractMetadata root fn = extractMetadata root fn) := by
  have key : ∀ (root : XTree) (fn : String) (md : Metadata),
      extractMetadata root fn = .ok md →
      md.filing_id = md.ein ++ "_" ++ md.tax_period ++ "_" ++ md.form_type := by
    intro root fn md h
    simp only [extractMetadata] at h
    split at h
    · exact absurd h (by simp)
    · split at h
      · exact absurd h (by simp)
      · split at h
        · exact absurd h (by simp)
        · simp only [Except.ok.injEq] at h
          subst h
          rfl
  refine ⟨key, fun r1 r2 f1 f2 m1 m2 h1 h2 he ht hf => ?_, fun _ _ => rfl⟩
  rw [key r1 f1 m1 h1, key r2 f2 m2 h2, he, ht, hf]

/-- Witness for C2 at the concrete document `wDoc`. -/
theorem filing_id_pure_function_witness :
    (⟨"123456789_2020-12-31_990", "123456789", "2020-12-31", "990", "2020v4.0",
        some 2020, none, "doc.xml"⟩ : Metadata).filing_id =
      "123456789" ++ "_" ++ "2020-12-31" ++ "_" ++ "990" :=
  filing_id_pure_function.1 wDoc "doc.xml" _ (by decide)

/-! ## C10: organization country default -/

/-- C10: the extracted organization record's country is never absent — it
equals the located foreign-address country code when a non-empty one exists,
and defaults to the literal `'US'` when none is found. -/
theorem country_never_absent :
    (∀ (root : XTree) (ein c : String),
      getText root foreignCountryPatterns = some c → c ≠ "" →
      (extractOrganizationInfo root ein).country = c) ∧
    (∀ (root : XTree) (ein : String),
      getText root foreignCountryPatterns = none →
      (extractOrganizationInfo root ein).country = "US") ∧
    (∀ (root : XTree) (ein : String),
      (extractOrganizationInfo root ein).country ≠ "") := by
  have hc : ∀ (root : XTree) (ein : String),
      (extractOrganizationInfo root ein).country =
        match getText root foreignCountryPatterns with
        | some c => if c = "" then "US" else c
        | none => "US" := fun _ _ => rfl
  refine ⟨fun root ein c h hne => ?_, fun root ein h => ?_, fun root ein => ?_⟩
  · rw [hc, h]
    exact if_neg hne
  · rw [hc, h]
  · rw [hc]
    split
    · split
      · decide
      · assumption
    · decide

/-- Witness for C10: the foreign country code is taken when present and the
default applies when absent. -/
theorem country_never_absent_witness :
    (extractOrganizationInfo wDocForeign "e").country = "CA" ∧
    (extractOrganizationInfo wDoc "e").country = "US" :=
  ⟨country_never_absent.1 wDocForeign "e" "CA" (by decide) (by decide),
   country_never_absent.2.1 wDoc "e" (by decide)⟩

/-! ## C9: upsert merge semantics -/

/-- C9 (amended): the Organization upsert merges with COALESCE — an absent
incoming attribute never overwrites the stored value and the key is kept —
but the Filing UPDATE overwrites `object_id`, `form_version` and `tax_year`
unconditionally (an absent incoming value does overwrite) while leaving
every other column of the row untouched. -/
theorem coalesce_org_filing_frame :
    (∀ (old : OrgRow) (inc : OrgInfo),
      (mergeOrg old inc).ein = old.ein ∧
      (inc.name = none → (mergeOrg old inc).name = old.name) ∧
      (inc.address_line1 = none → (mergeOrg old inc).address_line1 = old.address_line1) ∧
      (inc.address_line2 = none → (mergeOrg old inc).address_line2 = old.address_line2) ∧
      (inc.city = none → (mergeOrg old inc).city = old.city) ∧
      (inc.state = none → (mergeOrg old inc).state = old.state) ∧
      (inc.zip = none → (mergeOrg old inc).zip = old.zip) ∧
      (inc.website = none → (mergeOrg old inc).website = old.website)) ∧
    (∀ (orgs : List OrgRow) (inc : OrgInfo) (l' : List OrgRow),
      loadOrganization orgs inc = .ok l' →
      (orgs.any (fun r => r.ein == inc.ein)) = true →
      l' = orgs.map (fun r => if r.ein == inc.ein then mergeOrg r inc else r)) ∧
    (∀ (fils : List FilingRow) (md : Metadata) (l' : List FilingRow),
      loadFilingRecord fils md = .ok l' →
      (fils.any (fun r => r.filing_id == md.filing_id)) = true →
      l' = fils.map (fun r =>
        if r.filing_id == md.filing_id then
          { r with object_id := md.object_id, form_version := md.form_version,
                   tax_year := md.tax_year }
        else r)) := by
  refine ⟨fun old inc => ?_, fun orgs inc l' h hany => ?_, fun fils md l' h hany => ?_⟩
  · refine ⟨rfl, fun h => ?_, fun h => ?_, fun h => ?_, fun h => ?_, fun h => ?_,
      fun h => ?_, fun h => ?_⟩ <;> simp [mergeOrg, h]
  · unfold loadOrganization at h
    split at h
    · exact absurd h (by simp)
    · simp only [Except.ok.injEq] at h
      exact h.symm
  · unfold loadFilingRecord at h
    split at h
    · exact absurd h (by simp)
    · simp only [Except.ok.injEq] at h
      exact h.symm

/-- Counterexample to C9 as stated: for the filing `f1` the stored row has
`tax_year = some 2020`, the incoming metadata has `tax_year = none` (absent),
and after the merge the stored `tax_year` is `none` — the absent attribute
overwrote the existing non-null stored value. -/
theorem filing_update_overwrites_cex :
    c9Md.tax_year = none ∧
    c9Fils.map (fun r => r.tax_year) = [some 2020] ∧
    loadFilingRecord c9Fils c9Md =
      .ok [⟨"f1", "o2", "e1", "2020-12-31", "990", "v2", none, none⟩] :=
  ⟨rfl, rfl, by decide⟩

/-- Witness for the amended C9 at concrete rows. -/
theorem coalesce_org_filing_frame_witness :
    (mergeOrg ⟨"e1", some "N", none, none, none, none, none, some "US", none⟩
      ⟨"e1", none, none, none, none, none, none, "US", none⟩).name =
      (⟨"e1", some "N", none, none, none, none, none, some "US", none⟩ : OrgRow).name ∧
    [(⟨"f1", "o2", "e1", "2020-12-31", "990", "v2", none, none⟩ : FilingRow)] =
      c9Fils.map (fun r =>
        if r.filing_id == c9Md.filing_id then
          { r with object_id := c9Md.object_id, form_version := c9Md.form_version,
                   tax_year := c9Md.tax_year }
        else r) :=
  ⟨(coalesce_org_filing_frame.1 _ _).2.1 rfl,
   coalesce_org_filing_frame.2.2 c9Fils c9Md _ (by decide) (by decide)⟩

/-! ## C8: error scoping -/

/-- Helper: a document whose metadata extraction fails produces no partial
result and leaves the transformer state unchanged. -/
theorem processXmlFile_of_error (st : TransformerState) (root : XTree) (fn : String)
    (h : isErrorE (extractMetadata root fn) = true) :
    processXmlFile st root fn = (none, st) := by
  unfold processXmlFile
  split
  · rfl
  · rename_i md heq
    rw [heq] at h
    simp [isErrorE] at h

/-- C8 (amended): a document missing any required metadata field (employer
id, tax-period end, or return type) raises the metadata error
(`XMLProcessingError`), yields no partial result, and fails only that
document — the batch continues unchanged over the remaining documents.
Loading the concordance raises `ConcordanceError` fatally when the source
file is missing; but a source that merely lacks the required columns does
*not* raise: every row is skipped and an empty field mapping is loaded. -/
theorem error_scoping_amended :
    (∀ (root : XTree) (fn : String),
      (getText root einPatterns).getD "" = "" →
      extractMetadata root fn = .error "EIN not found in XML") ∧
    (∀ (root : XTree) (fn : String),
      (getText root einPatterns).getD "" ≠ "" →
      (getText root taxPeriodPatterns).getD "" = "" →
      extractMetadata root fn = .error "Tax period not found in XML") ∧
    (∀ (root : XTree) (fn : String),
      (getText root einPatterns).getD "" ≠ "" →
      (getText root taxPeriodPatterns).getD "" ≠ "" →
      (getText root formTypePatterns).getD "" = "" →
      extractMetadata root fn = .error "Form type not found in XML") ∧
    (∀ (st : TransformerState) (root : XTree) (fn : String),
      isErrorE (extractMetadata root fn) = true →
      processXmlFile st root fn = (none, st)) ∧
    (∀ (st : TransformerState) (root : XTree) (fn : String)
        (docs : List (XTree × String)),
      isErrorE (extractMetadata root fn) = true →
      transformBatch st ((root, fn) :: docs) = transformBatch st docs) ∧
    loadConcordance none = .error "Concordance file not found" ∧
    (∀ csv : CsvFile, "variable_name" ∉ csv.columns → "VAR_NAME" ∉ csv.columns →
      loadConcordance (some csv) = .ok ⟨[], [], [], true⟩) := by
  refine ⟨fun root fn h => ?_, fun root fn h1 h2 => ?_, fun root fn h1 h2 h3 => ?_,
    fun st root fn h => processXmlFile_of_error st root fn h,
    fun st root fn docs h => ?_, rfl, fun csv h1 h2 => ?_⟩
  · unfold extractMetadata
    rw [if_pos h]
  · unfold extractMetadata
    rw [if_neg h1, if_pos h2]
  · unfold extractMetadata
    rw [if_neg h1, if_neg h2, if_pos h3]
  · unfold transformBatch
    rw [List.foldl_cons]
    have hp := processXmlFile_of_error st root fn h
    simp only [hp]
  · have hcv : csv.columns.contains "variable_name" = false := by simpa using h1
    have hnone : ∀ row, getCell csv.columns row "VAR_NAME" = none := by
      intro row
      unfold getCell
      have hidx : csv.columns.findIdx? (fun c => c == "VAR_NAME") = none := by
        rw [List.findIdx?_eq_none_iff]
        intro x hx
        simp only [beq_eq_false_iff_ne, ne_eq]
        intro hxe
        exact h2 (hxe ▸ hx)
      rw [hidx]
    have hstep : ∀ (xc tc tbc rc : String) (acc : TransformerState × Nat) row,
        concordanceStep csv.columns "VAR_NAME" xc tc tbc rc acc row = acc := by
      intro xc tc tbc rc acc row
      unfold concordanceStep
      rw [hnone row]
    have hfold : ∀ (xc tc tbc rc : String) (rows : List (List (Option String)))
        (acc : TransformerState × Nat),
        rows.foldl (concordanceStep csv.columns "VAR_NAME" xc tc tbc rc) acc = acc := by
      intro xc tc tbc rc rows
      induction rows with
      | nil => intro acc; rfl
      | cons r rs ih => intro acc; rw [List.foldl_cons, hstep]; exact ih acc
    simp only [loadConcordance, hcv, Bool.false_eq_true, if_false, hfold]

/-- Counterexample to C8 as stated: a present source that lacks every
required concordance column loads successfully with zero field mappings —
no `ConcordanceError` is raised. -/
theorem missing_columns_no_error_cex :
    loadConcordance (some csvNoCols) = .ok ⟨[], [], [], true⟩ ∧
    isErrorE (loadConcordance (some csvNoCols)) = false :=
  ⟨by decide, by decide⟩

/-- Witness for the amended C8 at concrete inputs. -/
theorem error_scoping_amended_witness :
    extractMetadata wDocEmpty "f" = .error "EIN not found in XML" ∧
    processXmlFile wState wDocEmpty "f" = (none, wState) ∧
    transformBatch wState [(wDocEmpty, "f"), (wDoc, "doc.xml")] =
      transformBatch wState [(wDoc, "doc.xml")] ∧
    loadConcordance (some ⟨["a", "b"], [[some "x", some "y"]]⟩) = .ok ⟨[], [], [], true⟩ :=
  ⟨error_scoping_amended.1 wDocEmpty "f" (by decide),
   error_scoping_amended.2.2.2.1 wState wDocEmpty "f" (by decide),
   error_scoping_amended.2.2.2.2.1 wState wDocEmpty "f" [(wDoc, "doc.xml")] (by decide),
   error_scoping_amended.2.2.2.2.2.2 ⟨["a", "b"], [[some "x", some "y"]]⟩
     (by decide) (by decide)⟩

/-! ## Counting-dict lemmas (for the detector's validation) -/

theorem countsVal_bumpCount_self {κ : Type} [DecidableEq κ] (acc : List (κ × Nat))
    (k : κ) : countsVal (bumpCount acc k) k = some ((countsVal acc k).getD 0 + 1) := by
  induction acc with
  | nil => simp [bumpCount, countsVal]
  | cons p rest ih =>
    obtain ⟨k', n⟩ := p
    by_cases h : k = k'
    · subst h
      simp [bumpCount, countsVal]
    · simp [bumpCount, countsVal, h, ih]

theorem countsVal_bumpCount_ne {κ : Type} [DecidableEq κ] (acc : List (κ × Nat))
    (k k₀ : κ) (h : k ≠ k₀) : countsVal (bumpCount acc k₀) k = countsVal acc k := by
  induction acc with
  | nil => simp [bumpCount, countsVal, h]
  | cons p rest ih =>
    obtain ⟨k', n⟩ := p
    by_cases h' : k₀ = k'
    · subst h'
      simp [bumpCount, countsVal, h]
    · by_cases hk : k = k' <;> simp [bumpCount, countsVal, h', hk, ih]

theorem countsVal_foldl_not_mem {κ : Type} [DecidableEq κ] (l : List κ) :
    ∀ (acc : List (κ × Nat)) (k : κ), k ∉ l →
      countsVal (l.foldl bumpCount acc) k = countsVal acc k := by
  induction l with
  | nil => intro acc k _; rfl
  | cons c cs ih =>
    intro acc k h
    rw [List.foldl_cons, ih (bumpCount acc c) k (fun hm => h (List.mem_cons_of_mem _ hm)),
      countsVal_bumpCount_ne acc k c (fun he => h (he ▸ List.mem_cons_self c cs))]

theorem countsVal_foldl_mem {κ : Type} [DecidableEq κ] (l : List κ) :
    ∀ (acc : List (κ × Nat)) (k : κ), k ∈ l →
      countsVal (l.foldl bumpCount acc) k =
        some ((countsVal acc k).getD 0 + l.count k) := by
  induction l with
  | nil => intro _ _ h; cases h
  | cons c cs ih =>
    intro acc k h
    rw [List.foldl_cons]
    by_cases hk : k = c
    · subst hk
      by_cases hin : k ∈ cs
      · rw [ih _ k hin, countsVal_bumpCount_self, List.count_cons_self]
        simp only [Option.getD_some, Option.some.injEq]
        omega
      · rw [countsVal_foldl_not_mem cs _ k hin, countsVal_bumpCount_self,
          List.count_cons_self, List.count_eq_zero.mpr hin]
    · have hin : k ∈ cs := by
        rcases List.mem_cons.mp h with he | hm
        · exact absurd he hk
        · exact hm
      rw [ih _ k hin, countsVal_bumpCount_ne _ _ _ hk, List.count_cons_of_ne hk]

theorem mem_keys_bumpCount {κ : Type} [DecidableEq κ] (m : List (κ × Nat)) (k x : κ) :
    x ∈ (bumpCount m k).map Prod.fst → x ∈ m.map Prod.fst ∨ x = k := by
  induction m with
  | nil =>
    intro h
    simp [bumpCount] at h
    exact Or.inr h
  | cons p rest ih =>
    obtain ⟨k', n⟩ := p
    by_cases h : k = k'
    · intro hx
      simp only [bumpCount, if_pos h, List.map_cons] at hx
      exact Or.inl hx
    · intro hx
      simp only [bumpCount, if_neg h, List.map_cons, List.mem_cons] at hx
      rcases hx with he | hm
      · exact Or.inl (by simp [he])
      · rcases ih hm with hl | hr
        · exact Or.inl (List.mem_cons_of_mem _ hl)
        · exact Or.inr hr

theorem keysNodup_bumpCount {κ : Type} [DecidableEq κ] (m : List (κ × Nat)) (k : κ) :
    (m.map Prod.fst).Nodup → ((bumpCount m k).map Prod.fst).Nodup := by
  induction m with
  | nil => intro _; simp [bumpCount]
  | cons p rest ih =>
    obtain ⟨k', n⟩ := p
    intro h
    simp only [List.map_cons, List.nodup_cons] at h
    obtain ⟨hk', hrest⟩ := h
    by_cases hh : k = k'
    · simp only [bumpCount, if_pos hh, List.map_cons, List.nodup_cons]
      exact ⟨hk', hrest⟩
    · simp only [bumpCount, if_neg hh, List.map_cons, List.nodup_cons]
      refine ⟨fun hx => ?_, ih hrest⟩
      rcases mem_keys_bumpCount rest k k' hx with hm | he
      · exact hk' hm
      · exact hh he.symm

theorem keysNodup_foldl {κ : Type} [DecidableEq κ] (l : List κ) :
    ∀ m : List (κ × Nat), (m.map Prod.fst).Nodup →
      ((l.foldl bumpCount m).map Prod.fst).Nodup := by
  induction l with
  | nil => intro m h; exact h
  | cons c cs ih =>
    intro m h
    rw [List.foldl_cons]
    exact ih _ (keysNodup_bumpCount m c h)

theorem countsVal_of_mem {κ : Type} [DecidableEq κ] (m : List (κ × Nat))
    (h : (m.map Prod.fst).Nodup) (p : κ × Nat) (hp : p ∈ m) :
    countsVal m p.1 = some p.2 := by
  induction m with
  | nil => cases hp
  | cons q rest ih =>
    obtain ⟨k', n⟩ := q
    simp only [List.map_cons, List.nodup_cons] at h
    rcases List.mem_cons.mp hp with he | hm
    · subst he
      simp [countsVal]
    · have hne : p.1 ≠ k' := by
        intro hh
        exact h.1 (hh ▸ List.mem_map_of_mem Prod.fst hm)
      simp only [countsVal, if_neg hne]
      exact ih h.2 hm

theorem mem_of_countsVal {κ : Type} [DecidableEq κ] (m : List (κ × Nat)) (k : κ)
    (n : Nat) (h : countsVal m k = some n) : (k, n) ∈ m := by
  induction m with
  | nil => simp [countsVal] at h
  | cons q rest ih =>
    obtain ⟨k', n'⟩ := q
    by_cases he : k = k'
    · subst he
      have hn : n' = n := by simpa [countsVal] using h
      subst hn
      exact List.mem_cons_self _ _
    · simp only [countsVal, if_neg he] at h
      exact List.mem_cons_of_mem _ (ih h)

/-- The detector's duplicate test: some counting-dict entry exceeds one
exactly when some element occurs at least twice in the list. -/
theorem any_count_iff {κ : Type} [DecidableEq κ] (l : List κ) :
    ((l.foldl bumpCount []).any fun p => decide (1 < p.2)) = true ↔
      ∃ k, 1 < l.count k := by
  constructor
  · intro h
    rw [List.any_eq_true] at h
    obtain ⟨p, hp, hgt⟩ := h
    rw [decide_eq_true_eq] at hgt
    have hnod := keysNodup_foldl l [] (by simp)
    have hcv := countsVal_of_mem _ hnod p hp
    by_cases hin : p.1 ∈ l
    · rw [countsVal_foldl_mem l [] p.1 hin] at hcv
      simp only [countsVal, Option.getD_none, Nat.zero_add, Option.some.injEq] at hcv
      exact ⟨p.1, by omega⟩
    · rw [countsVal_foldl_not_mem l [] p.1 hin] at hcv
      simp [countsVal] at hcv
  · rintro ⟨k, hk⟩
    have hin : k ∈ l := by
      by_contra hne
      rw [List.count_eq_zero.mpr hne] at hk
      omega
    have hcv := countsVal_foldl_mem l [] k hin
    simp only [countsVal, Option.getD_none, Nat.zero_add] at hcv
    rw [List.any_eq_true]
    exact ⟨(k, l.count k), mem_of_countsVal _ _ _ hcv, by simpa using hk⟩

/-! ## C6: validation of repeating-group candidates -/

/-- C6: validation confirms a candidate only if the set of grandchild local
names (a child's row "shape") recurs across at least two immediate children:
every confirmed candidate has a duplicated row shape, and a container with
exactly one child, or with pairwise distinct child shapes, is never
confirmed. -/
theorem validation_requires_recurring_shape :
    (∀ (gs : List (XTree × String)) (e : XTree) (n : String),
      (e, n) ∈ validateGroups gs → ¬ (e.children.map rowShape).Nodup) ∧
    (∀ gs : List (XTree × String),
      (∀ p ∈ gs, p.1.children.length = 1) → validateGroups gs = []) ∧
    (∀ gs : List (XTree × String),
      (∀ p ∈ gs, (p.1.children.map rowShape).Nodup) → validateGroups gs = []) := by
  have hshape : ∀ e : XTree, e.children.map rowShape =
      (e.children.map rowKey).map Multiset.toFinset := by
    intro e
    rw [List.map_map]
    rfl
  have hkey_of_shape : ∀ e : XTree, (e.children.map rowShape).Nodup →
      (e.children.map rowKey).Nodup := by
    intro e h
    rw [hshape] at h
    exact List.Nodup.of_map _ h
  refine ⟨fun gs e n hmem => ?_, fun gs hone => ?_, fun gs hsh => ?_⟩
  · rw [validateGroups, List.mem_filter] at hmem
    have hcond := hmem.2
    rw [Bool.and_eq_true] at hcond
    have hany := hcond.2
    rw [show childStructure (e, n).1 = (e.children.map rowKey).foldl bumpCount []
        from rfl, any_count_iff] at hany
    obtain ⟨k, hk⟩ := hany
    intro hnodup
    have := List.nodup_iff_count_le_one.mp (hkey_of_shape e hnodup) k
    omega
  · rw [validateGroups, List.filter_eq_nil_iff]
    intro p hp
    have hlen := hone p hp
    intro hcond
    rw [Bool.and_eq_true] at hcond
    have hany := hcond.2
    rw [show childStructure p.1 = (p.1.children.map rowKey).foldl bumpCount []
        from rfl, any_count_iff] at hany
    obtain ⟨k, hk⟩ := hany
    have hle : (p.1.children.map rowKey).count k ≤ 1 := by
      calc (p.1.children.map rowKey).count k ≤ (p.1.children.map rowKey).length :=
            List.count_le_length k _
        _ = 1 := by rw [List.length_map, hlen]
    omega
  · rw [validateGroups, List.filter_eq_nil_iff]
    intro p hp
    have hnd := hkey_of_shape p.1 (hsh p hp)
    intro hcond
    rw [Bool.and_eq_true] at hcond
    have hany := hcond.2
    rw [show childStructure p.1 = (p.1.children.map rowKey).foldl bumpCount []
        from rfl, any_count_iff] at hany
    obtain ⟨k, hk⟩ := hany
    have := List.nodup_iff_count_le_one.mp hnd k
    omega

/-- Witness for C6 at concrete candidates: a confirmed two-row group with a
duplicated shape, a single-child container, and an all-distinct-shapes
container. -/
theorem validation_requires_recurring_shape_witness :
    ¬ (vG.children.map rowShape).Nodup ∧
    validateGroups [(vB, "G")] = [] ∧
    validateGroups [(vC, "G")] = [] :=
  ⟨validation_requires_recurring_shape.1 [(vG, "G")] vG "G"
      (by rw [show validateGroups [(vG, "G")] = [(vG, "G")] from rfl]
          exact List.mem_singleton_self _),
   validation_requires_recurring_shape.2.1 [(vB, "G")]
      (by intro p hp
          rw [List.mem_singleton] at hp
          subst hp
          rfl),
   validation_requires_recurring_shape.2.2 [(vC, "G")]
      (by intro p hp
          rw [List.mem_singleton] at hp
          subst hp
          decide)⟩

/-! ## C7: group hierarchy and parent references -/

theorem mem_dedupAux (l : List String) :
    ∀ (seen : List String) (x : String), x ∈ dedupAux l seen ↔ x ∈ l ∧ x ∉ seen := by
  induction l with
  | nil => intro seen x; simp [dedupAux]
  | cons c cs ih =>
    intro seen x
    have hunf : dedupAux (c :: cs) seen =
        if seen.contains c then dedupAux cs seen else c :: dedupAux cs (c :: seen) := rfl
    by_cases h : seen.contains c
    · rw [hunf, if_pos h, ih seen x]
      constructor
      · rintro ⟨hx, hns⟩
        exact ⟨List.mem_cons_of_mem _ hx, hns⟩
      · rintro ⟨hx, hns⟩
        rcases List.mem_cons.mp hx with he | hm
        · subst he
          exact absurd (by simpa using h) hns
        · exact ⟨hm, hns⟩
    · rw [hunf, if_neg h]
      have hcs : c ∉ seen := by simpa using h
      constructor
      · intro hx
        rcases List.mem_cons.mp hx with he | hm
        · subst he
          exact ⟨List.mem_cons_self _ _, hcs⟩
        · obtain ⟨hx', hns'⟩ := (ih (c :: seen) x).mp hm
          exact ⟨List.mem_cons_of_mem _ hx',
            fun hs => hns' (List.mem_cons_of_mem _ hs)⟩
      · rintro ⟨hx, hns⟩
        rcases List.mem_cons.mp hx with he | hm
        · subst he
          exact List.mem_cons_self _ _
        · by_cases hxc : x = c
          · subst hxc
            exact List.mem_cons_self _ _
          · exact List.mem_cons_of_mem _ ((ih (c :: seen) x).mpr
              ⟨hm, fun hs => by
                rcases List.mem_cons.mp hs with he' | hm'
                · exact hxc he'
                · exact hns hm'⟩)

theorem mem_dedupKeepFirst (l : List String) (x : String) :
    x ∈ dedupKeepFirst l ↔ x ∈ l := by
  rw [dedupKeepFirst, mem_dedupAux]
  simp

/-- Invariant of the inner scan of `build_group_hierarchy`: starting from a
valid accumulator, the fold returns the longest strict segment-aligned
ancestor among the scanned paths and the accumulator. -/
theorem findFold_spec (child : String) :
    ∀ (ks : List String) (acc : Option String × Nat),
      (∀ q ∈ ks, q ≠ "") →
      (acc = (none, 0) ∨
        ∃ p, acc = (some p, p.length) ∧ p ≠ child ∧
          startsWithB child (p ++ "/") = true) →
      acc.2 ≤ (ks.foldl
        (fun (acc : Option String × Nat) path =>
          if path = child ∨ path.length ≤ acc.2 then acc
          else if startsWithB child (path ++ "/") then (some path, path.length)
          else acc) acc).2 ∧
      ((∃ p, (ks.foldl
          (fun (acc : Option String × Nat) path =>
            if path = child ∨ path.length ≤ acc.2 then acc
            else if startsWithB child (path ++ "/") then (some path, path.length)
            else acc) acc) = (some p, p.length) ∧ p ≠ child ∧
          startsWithB child (p ++ "/") = true ∧ (p ∈ ks ∨ acc.1 = some p) ∧
          ∀ q ∈ ks, q ≠ child → startsWithB child (q ++ "/") = true →
            q.length ≤ (ks.foldl
              (fun (acc : Option String × Nat) path =>
                if path = child ∨ path.length ≤ acc.2 then acc
                else if startsWithB child (path ++ "/") then (some path, path.length)
                else acc) acc).2) ∨
       ((ks.foldl
          (fun (acc : Option String × Nat) path =>
            if path = child ∨ path.length ≤ acc.2 then acc
            else if startsWithB child (path ++ "/") then (some path, path.length)
            else acc) acc) = acc ∧ acc = (none, 0) ∧
        ∀ q ∈ ks, q ≠ child → startsWithB child (q ++ "/") = true → False)) := by
  intro ks
  induction ks with
  | nil =>
    intro acc _ hacc
    refine ⟨Nat.le_refl _, ?_⟩
    rcases hacc with h0 | ⟨p, hp, hpc, hps⟩
    · exact Or.inr ⟨rfl, h0, by simp⟩
    · exact Or.inl ⟨p, hp, hpc, hps, Or.inr (by rw [hp]), by simp⟩
  | cons path ks ih =>
    intro acc h0 hacc
    rw [List.foldl_cons]
    have h0' : ∀ q ∈ ks, q ≠ "" := fun q hq => h0 q (List.mem_cons_of_mem _ hq)
    by_cases hskip : path = child ∨ path.length ≤ acc.2
    · rw [if_pos hskip]
      obtain ⟨hmono, hres⟩ := ih acc h0' hacc
      refine ⟨hmono, ?_⟩
      rcases hres with ⟨p, hfold, hpc, hps, hloc, hbound⟩ | ⟨hfold, hnone, hvac⟩
      · refine Or.inl ⟨p, hfold, hpc, hps, ?_, ?_⟩
        · rcases hloc with hm | ha
          · exact Or.inl (List.mem_cons_of_mem _ hm)
          · exact Or.inr ha
        · intro q hq hqc hqs
          rcases List.mem_cons.mp hq with he | hm
          · subst he
            rcases hskip with he' | hle
            · exact absurd he' hqc
            · exact le_trans hle hmono
          · exact hbound q hm hqc hqs
      · refine Or.inr ⟨hfold, hnone, ?_⟩
        intro q hq hqc hqs
        rcases List.mem_cons.mp hq with he | hm
        · subst he
          rcases hskip with he' | hle
          · exact hqc he'
          · rw [hnone] at hle
            simp only [Nat.le_zero] at hle
            have : q = "" := by
              cases q with
              | mk data =>
                cases data with
                | nil => rfl
                | cons a as => simp [String.length] at hle
            exact h0 q (List.mem_cons_self _ _) this
        · exact hvac q hm hqc hqs
    · rw [if_neg hskip]
      push_neg at hskip
      obtain ⟨hpc, hlt⟩ := hskip
      by_cases hsw : startsWithB child (path ++ "/") = true
      · rw [if_pos hsw]
        have hacc' : ((some path, path.length) : Option String × Nat) = (none, 0) ∨
            ∃ p, ((some path, path.length) : Option String × Nat) = (some p, p.length) ∧
              p ≠ child ∧ startsWithB child (p ++ "/") = true :=
          Or.inr ⟨path, rfl, hpc, hsw⟩
        obtain ⟨hmono, hres⟩ := ih (some path, path.length) h0' hacc'
        have hm2 : acc.2 ≤ (ks.foldl _ (some path, path.length)).2 :=
          le_trans (le_of_lt hlt) hmono
        refine ⟨hm2, ?_⟩
        rcases hres with ⟨p, hfold, hpc', hps', hloc, hbound⟩ | ⟨hfold, hnone, _⟩
        · refine Or.inl ⟨p, hfold, hpc', hps', ?_, ?_⟩
          · rcases hloc with hm | ha
            · exact Or.inl (List.mem_cons_of_mem _ hm)
            · simp only [Option.some.injEq] at ha
              exact Or.inl (ha ▸ List.mem_cons_self _ _)
          · intro q hq hqc hqs
            rcases List.mem_cons.mp hq with he | hm
            · subst he
              exact le_trans (le_of_eq rfl) hmono
            · exact hbound q hm hqc hqs
        · exact absurd (congrArg Prod.fst hnone) (by simp)
      · rw [if_neg hsw]
        obtain ⟨hmono, hres⟩ := ih acc h0' hacc
        refine ⟨hmono, ?_⟩
        rcases hres with ⟨p, hfold, hpc', hps', hloc, hbound⟩ | ⟨hfold, hnone, hvac⟩
        · refine Or.inl ⟨p, hfold, hpc', hps', ?_, ?_⟩
          · rcases hloc with hm | ha
            · exact Or.inl (List.mem_cons_of_mem _ hm)
            · exact Or.inr ha
          · intro q hq hqc hqs
            rcases List.mem_cons.mp hq with he | hm
            · subst he
              exact absurd hqs (by simp [hsw])
            · exact hbound q hm hqc hqs
        · refine Or.inr ⟨hfold, hnone, ?_⟩
          intro q hq hqc hqs
          rcases List.mem_cons.mp hq with he | hm
          · subst he
            exact absurd hqs (by simp [hsw])
          · exact hvac q hm hqc hqs

/-- Characterization of `findParentOf`: either no strict segment-aligned
ancestor exists among the keys, or the result is a longest one. -/
theorem findParentOf_spec (keys : List String) (child : String)
    (h0 : ∀ q ∈ keys, q ≠ "") :
    ((findParentOf keys child).1 = none ∧
      ∀ q ∈ keys, q ≠ child → startsWithB child (q ++ "/") = true → False) ∨
    (∃ p, (findParentOf keys child).1 = some p ∧ p ∈ keys ∧ p ≠ child ∧
      startsWithB child (p ++ "/") = true ∧
      ∀ q ∈ keys, q ≠ child → startsWithB child (q ++ "/") = true →
        q.length ≤ p.length) := by
  have h := findFold_spec child keys (none, 0) h0 (Or.inl rfl)
  obtain ⟨-, hres⟩ := h
  rcases hres with ⟨p, hfold, hpc, hps, hloc, hbound⟩ | ⟨hfold, -, hvac⟩
  · refine Or.inr ⟨p, ?_, ?_, hpc, hps, ?_⟩
    · rw [findParentOf, hfold]
    · rcases hloc with hm | ha
      · exact hm
      · exact absurd ha (by simp)
    · intro q hq hqc hqs
      have := hbound q hq hqc hqs
      rwa [hfold] at this
  · refine Or.inl ⟨?_, hvac⟩
    rw [findParentOf, hfold]

/-- Two same-length strict segment-aligned ancestors of one path are
equal. -/
theorem segment_ancestor_unique (c p q : String)
    (hp : startsWithB c (p ++ "/") = true) (hq : startsWithB c (q ++ "/") = true)
    (hlen : p.length = q.length) : p = q := by
  rw [startsWithB, List.isPrefixOf_iff_prefix] at hp hq
  have hp' : p.toList ++ ['/'] <+: c.toList := hp
  have hq' : q.toList ++ ['/'] <+: c.toList := hq
  have hlen' : (p.toList ++ ['/']).length = (q.toList ++ ['/']).length := by
    simp only [List.length_append, List.length_singleton]
    have : p.toList.length = q.toList.length := hlen
    omega
  have heq : p.toList ++ ['/'] = q.toList ++ ['/'] :=
    (List.prefix_of_prefix_length_le hp' hq' (le_of_eq hlen')).eq_of_length hlen'
  have : p.toList = q.toList := List.append_cancel_right heq
  exact String.ext this

/-- The rows appended by `mkRGRows` carry every incoming group's fields
verbatim, `parent_group_id` included. -/
theorem mem_mkRGRows (g : RGroupRec) :
    ∀ (groups : List RGroupRec) (n : Nat), g ∈ groups →
      ∃ r ∈ mkRGRows n groups, r.name = g.name ∧ r.xpath = g.xpath ∧
        r.filing_id = g.filing_id ∧ r.parent_group_id = g.parent_group_id := by
  intro groups
  induction groups with
  | nil => intro n h; cases h
  | cons g' gr ih =>
    intro n h
    rcases List.mem_cons.mp h with he | hm
    · subst he
      exact ⟨⟨n, g.filing_id, g.parent_group_id, g.name, g.xpath⟩,
        List.mem_cons_self _ _, rfl, rfl, rfl, rfl⟩
    · obtain ⟨r, hr, hprops⟩ := ih (n + 1) hm
      exact ⟨r, List.mem_cons_of_mem _ hr, hprops⟩

/-- The group-insert fold of `_load_repeating_groups`, in closed form. -/
theorem rgInsertFold_spec :
    ∀ (gs : List RGroupRec) (acc : Store × List (Nat × Nat)),
      gs.foldl rgInsertStep acc =
        ({ acc.1 with
            repeating_groups := acc.1.repeating_groups
              ++ mkRGRows acc.1.next_group_id gs,
            next_group_id := acc.1.next_group_id + gs.length },
         mkIdMap acc.1.next_group_id acc.2 gs) := by
  intro gs
  induction gs with
  | nil =>
    intro acc
    obtain ⟨s, m⟩ := acc
    obtain ⟨o, f, fv, rg, rgv, nx⟩ := s
    simp [mkRGRows, mkIdMap]
  | cons g gr ih =>
    intro acc
    rw [List.foldl_cons, ih]
    obtain ⟨s, m⟩ := acc
    obtain ⟨o, f, fv, rg, rgv, nx⟩ := s
    have h1 : (rg ++ [(⟨nx, g.filing_id, g.parent_group_id, g.name, g.xpath⟩ : RGRow)])
        ++ mkRGRows (nx + 1) gr =
        rg ++ (⟨nx, g.filing_id, g.parent_group_id, g.name, g.xpath⟩ : RGRow)
          :: mkRGRows (nx + 1) gr := by
      rw [List.append_assoc]
      rfl
    have h2 : nx + 1 + gr.length = nx + (gr.length + 1) := by omega
    simp only [rgInsertStep, mkRGRows, mkIdMap, List.length_cons, h1, h2]

/-- The rows of `repeating_groups` after one successful
`_load_repeating_groups` call: the value batches write only to
`repeating_group_values`, so the inserted group rows are exactly those of
the insert fold. -/
theorem loadRG_rows (n : Nat) (store : Store) (groups : List RGroupRec)
    (gvals : List GroupValueRec) (st' : Store)
    (hok : loadRepeatingGroups n store groups gvals = .ok st') :
    st'.repeating_groups =
      store.repeating_groups ++ mkRGRows store.next_group_id groups := by
  simp only [loadRepeatingGroups] at hok
  split at hok
  · rename_i h
    rw [List.isEmpty_iff] at h
    simp only [Except.ok.injEq] at hok
    subst hok
    subst h
    simp [mkRGRows]
  · rcases hm : rgvChunksFold (groups.foldl rgInsertStep (store, [])).2
        (chunksOf n gvals)
        (groups.foldl rgInsertStep (store, [])).1.repeating_group_values
        with e | rgv
    · rw [hm] at hok
      exact absurd hok (by simp)
    · rw [hm] at hok
      simp only [Except.ok.injEq] at hok
      subst hok
      show (groups.foldl rgInsertStep (store, [])).1.repeating_groups =
        store.repeating_groups ++ mkRGRows store.next_group_id groups
      rw [rgInsertFold_spec]

/-- C7 (amended): for every confirmed group, `build_group_hierarchy` assigns
as parent exactly the other group whose (non-empty) structural path is the
longest strict segment-aligned prefix of its own, and a group with no such
prefix gets no parent; but the loader does *not* remap the stored
`parent_group_id` — each inserted RepeatingGroup row carries the
transformer-supplied `parent_group_id` verbatim (for pipeline output this is
always null, and any transform-local id passed through is written unmapped
rather than translated to the store id). -/
theorem hierarchy_longest_and_parent_verbatim :
    (∀ paths : List String, (∀ p ∈ paths, p ≠ "") →
      ∀ child parent : String,
        ((child, parent) ∈ buildGroupHierarchy paths ↔
          child ∈ paths ∧ parent ∈ paths ∧ parent ≠ child ∧
          startsWithB child (parent ++ "/") = true ∧
          ∀ q ∈ paths, q ≠ child → startsWithB child (q ++ "/") = true →
            q.length ≤ parent.length)) ∧
    (∀ (n : Nat) (store : Store) (groups : List RGroupRec)
        (gvals : List GroupValueRec) (st' : Store),
      loadRepeatingGroups n store groups gvals = .ok st' →
      st'.repeating_groups =
        store.repeating_groups ++ mkRGRows store.next_group_id groups) ∧
    (∀ (n : Nat) (groups : List RGroupRec) (g : RGroupRec), g ∈ groups →
      ∃ r ∈ mkRGRows n groups, r.name = g.name ∧ r.xpath = g.xpath ∧
        r.filing_id = g.filing_id ∧ r.parent_group_id = g.parent_group_id) := by
  refine ⟨fun paths hne child parent => ?_, loadRG_rows,
    fun n groups g hg => mem_mkRGRows g groups n hg⟩
  have hkeys : ∀ q, q ∈ dedupKeepFirst paths ↔ q ∈ paths :=
    fun q => mem_dedupKeepFirst paths q
  have hne' : ∀ q ∈ dedupKeepFirst paths, q ≠ "" :=
    fun q hq => hne q ((hkeys q).mp hq)
  constructor
  · intro hmem
    rw [buildGroupHierarchy, List.mem_filterMap] at hmem
    obtain ⟨c, hc, heq⟩ := hmem
    rcases hfp : (findParentOf (dedupKeepFirst paths) c).1 with - | p
    · rw [hfp] at heq
      exact absurd heq (by simp)
    · rw [hfp] at heq
      simp only [Option.some.injEq, Prod.mk.injEq] at heq
      obtain ⟨hcc, hpp⟩ := heq
      rw [hcc] at hc hfp
      rw [hpp] at hfp
      rcases findParentOf_spec (dedupKeepFirst paths) child hne' with
        ⟨hnone, -⟩ | ⟨p', hsome, hpm, hpc, hps, hbound⟩
      · rw [hnone] at hfp
        exact absurd hfp (by simp)
      · rw [hsome] at hfp
        simp only [Option.some.injEq] at hfp
        rw [hfp] at hpm hpc hps hbound
        refine ⟨(hkeys child).mp hc, (hkeys parent).mp hpm, hpc, hps, ?_⟩
        intro q hq hqc hqs
        exact hbound q ((hkeys q).mpr hq) hqc hqs
  · rintro ⟨hchild, hparent, hpc, hps, hbound⟩
    rw [buildGroupHierarchy, List.mem_filterMap]
    refine ⟨child, (hkeys child).mpr hchild, ?_⟩
    rcases findParentOf_spec (dedupKeepFirst paths) child hne' with
      ⟨-, hvac⟩ | ⟨p', hsome, hpm, hpc', hps', hbound'⟩
    · exact absurd hps (by
        intro hs
        exact hvac parent ((hkeys parent).mpr hparent) hpc hs)
    · have hple : p'.length ≤ parent.length :=
        hbound p' ((hkeys p').mp hpm) hpc' hps'
      have hlep : parent.length ≤ p'.length :=
        hbound' parent ((hkeys parent).mpr hparent) hpc hps
      have : p' = parent :=
        segment_ancestor_unique child p' parent hps' hps (Nat.le_antisymm hple hlep)
      rw [hsome, this]

/-- Counterexample to C7 as stated: loading two groups where the second
carries transform-local parent id 1 into a store whose serial ids start at
10 assigns store ids 10 and 11, yet the stored nested row keeps
`parent_group_id = 1` — a value that is not the store id of any inserted
group (the correct store-remapped parent id would be 10). -/
theorem parent_id_not_remapped_cex :
    loadRepeatingGroups 100 store10 c7Groups [] =
      .ok { store10 with
              repeating_groups :=
                [⟨10, "f", none, "A", "/a"⟩, ⟨11, "f", some 1, "B", "/a/b"⟩],
              next_group_id := 12 } ∧
    (∀ r ∈ [(⟨10, "f", none, "A", "/a"⟩ : RGRow), ⟨11, "f", some 1, "B", "/a/b"⟩],
      r.group_id ≠ 1) :=
  ⟨by decide, by decide⟩

/-- Witness for the amended C7 at concrete paths, a concrete successful load
and concrete group records. -/
theorem hierarchy_longest_and_parent_verbatim_witness :
    (("/a/b", "/a") ∈ buildGroupHierarchy ["/a", "/a/b"] ↔
      "/a/b" ∈ ["/a", "/a/b"] ∧ "/a" ∈ ["/a", "/a/b"] ∧ "/a" ≠ "/a/b" ∧
      startsWithB "/a/b" ("/a" ++ "/") = true ∧
      ∀ q ∈ ["/a", "/a/b"], q ≠ "/a/b" → startsWithB "/a/b" (q ++ "/") = true →
        q.length ≤ "/a".length) ∧
    ({ store10 with
        repeating_groups :=
          [⟨10, "f", none, "A", "/a"⟩, ⟨11, "f", some 1, "B", "/a/b"⟩],
        next_group_id := 12 } : Store).repeating_groups =
      store10.repeating_groups ++ mkRGRows store10.next_group_id c7Groups ∧
    (∃ r ∈ mkRGRows 10 c7Groups,
      r.name = (⟨2, "f", "B", "/a/b", some 1⟩ : RGroupRec).name ∧
      r.xpath = (⟨2, "f", "B", "/a/b", some 1⟩ : RGroupRec).xpath ∧
      r.filing_id = (⟨2, "f", "B", "/a/b", some 1⟩ : RGroupRec).filing_id ∧
      r.parent_group_id = (⟨2, "f", "B", "/a/b", some 1⟩ : RGroupRec).parent_group_id) :=
  ⟨hierarchy_longest_and_parent_verbatim.1 ["/a", "/a/b"] (by decide) "/a/b" "/a",
   hierarchy_longest_and_parent_verbatim.2.1 100 store10 c7Groups []
     { store10 with
        repeating_groups :=
          [⟨10, "f", none, "A", "/a"⟩, ⟨11, "f", some 1, "B", "/a/b"⟩],
        next_group_id := 12 }
     (by decide),
   hierarchy_longest_and_parent_verbatim.2.2 10 c7Groups ⟨2, "f", "B", "/a/b", some 1⟩
     (by decide)⟩

/-! ## C4: idempotent entity loading -/

/-- A keyed list with unique keys and a member under key `k` filters to
exactly one row. -/
theorem filter_singleton_of_nodup {α : Type} (key : α → String) :
    ∀ (l : List α) (k : String), (l.map key).Nodup → (∃ r ∈ l, key r = k) →
      (l.filter (fun r => key r == k)).length = 1 := by
  intro l
  induction l with
  | nil => rintro k _ ⟨r, hr, -⟩; cases hr
  | cons a as ih =>
    rintro k hn ⟨r, hr, hk⟩
    simp only [List.map_cons, List.nodup_cons] at hn
    obtain ⟨hka, hnd⟩ := hn
    by_cases hak : key a = k
    · rw [List.filter_cons_of_pos (by simpa using hak)]
      have hnil : as.filter (fun r => key r == k) = [] := by
        rw [List.filter_eq_nil_iff]
        intro b hb hbe
        rw [beq_iff_eq] at hbe
        apply hka
        have hmem : key b ∈ as.map key := List.mem_map_of_mem key hb
        rwa [hbe, ← hak] at hmem
      rw [hnil]
      rfl
    · rw [List.filter_cons_of_neg (by simpa using hak)]
      rcases List.mem_cons.mp hr with he | hm
      · exact absurd (he ▸ hk) hak
      · exact ih k hnd ⟨r, hm, hk⟩

/-- A successful `_load_organization` preserves key uniqueness and leaves a
row under the incoming EIN. -/
theorem loadOrganization_spec (orgs : List OrgRow) (inc : OrgInfo)
    (l' : List OrgRow) (hok : loadOrganization orgs inc = .ok l')
    (hn : (orgs.map OrgRow.ein).Nodup) :
    (l'.map OrgRow.ein).Nodup ∧ ∃ r ∈ l', r.ein = inc.ein := by
  unfold loadOrganization at hok
  split at hok
  · exact absurd hok (by simp)
  · split at hok
    · rename_i hany
      simp only [Except.ok.injEq] at hok
      subst hok
      have hkeys : (orgs.map (fun r => if r.ein == inc.ein then mergeOrg r inc else r)).map
          OrgRow.ein = orgs.map OrgRow.ein := by
        rw [List.map_map]
        apply List.map_congr_left
        intro r _
        by_cases h : r.ein == inc.ein
        · simp only [Function.comp_apply, if_pos h]
          rfl
        · simp only [Function.comp_apply, if_neg h]
      refine ⟨by rw [hkeys]; exact hn, ?_⟩
      rw [List.any_eq_true] at hany
      obtain ⟨r, hr, hbe⟩ := hany
      rw [beq_iff_eq] at hbe
      refine ⟨mergeOrg r inc, ?_, by rw [mergeOrg]; exact hbe⟩
      have : (if r.ein == inc.ein then mergeOrg r inc else r) = mergeOrg r inc :=
        if_pos (by rwa [beq_iff_eq])
      exact this ▸ List.mem_map_of_mem _ hr
    · rename_i hany
      simp only [Except.ok.injEq] at hok
      subst hok
      have hnin : inc.ein ∉ orgs.map OrgRow.ein := by
        intro hm
        rw [List.mem_map] at hm
        obtain ⟨r, hr, hre⟩ := hm
        exact hany (List.any_eq_true.mpr ⟨r, hr, by rwa [beq_iff_eq]⟩)
      refine ⟨?_, ⟨_, List.mem_append_right _ (List.mem_singleton_self _), rfl⟩⟩
      rw [List.map_append, List.nodup_append]
      exact ⟨hn, List.nodup_singleton _, by
        intro x hx hy
        simp only [List.map_cons, List.map_nil, List.mem_singleton] at hy
        exact hnin (hy ▸ hx)⟩

/-- A successful `_load_filing_record` preserves key uniqueness and leaves a
row under the incoming filing id. -/
theorem loadFilingRecord_spec (fils : List FilingRow) (md : Metadata)
    (l' : List FilingRow) (hok : loadFilingRecord fils md = .ok l')
    (hn : (fils.map FilingRow.filing_id).Nodup) :
    (l'.map FilingRow.filing_id).Nodup ∧ ∃ r ∈ l', r.filing_id = md.filing_id := by
  unfold loadFilingRecord at hok
  split at hok
  · exact absurd hok (by simp)
  · split at hok
    · rename_i hany
      simp only [Except.ok.injEq] at hok
      subst hok
      have hkeys : (fils.map (fun r =>
          if r.filing_id == md.filing_id then
            { r with object_id := md.object_id, form_version := md.form_version,
                     tax_year := md.tax_year }
          else r)).map FilingRow.filing_id = fils.map FilingRow.filing_id := by
        rw [List.map_map]
        apply List.map_congr_left
        intro r _
        by_cases h : r.filing_id == md.filing_id
        · simp only [Function.comp_apply, if_pos h]
        · simp only [Function.comp_apply, if_neg h]
      refine ⟨by rw [hkeys]; exact hn, ?_⟩
      rw [List.any_eq_true] at hany
      obtain ⟨r, hr, hbe⟩ := hany
      have hbe' := hbe
      rw [beq_iff_eq] at hbe'
      have hifeq : (if r.filing_id == md.filing_id then
          { r with object_id := md.object_id, form_version := md.form_version,
                   tax_year := md.tax_year } else r) =
          { r with object_id := md.object_id, form_version := md.form_version,
                   tax_year := md.tax_year } := if_pos hbe
      have hm0 := List.mem_map_of_mem (fun r =>
          if r.filing_id == md.filing_id then
            { r with object_id := md.object_id, form_version := md.form_version,
                     tax_year := md.tax_year } else r) hr
      simp only [] at hm0
      rw [hifeq] at hm0
      exact ⟨_, hm0, hbe'⟩
    · rename_i hany
      simp only [Except.ok.injEq] at hok
      subst hok
      have hnin : md.filing_id ∉ fils.map FilingRow.filing_id := by
        intro hm
        rw [List.mem_map] at hm
        obtain ⟨r, hr, hre⟩ := hm
        exact hany (List.any_eq_true.mpr ⟨r, hr, by rwa [beq_iff_eq]⟩)
      refine ⟨?_, ⟨_, List.mem_append_right _ (List.mem_singleton_self _), rfl⟩⟩
      rw [List.map_append, List.nodup_append]
      exact ⟨hn, List.nodup_singleton _, by
        intro x hx hy
        simp only [List.map_cons, List.map_nil, List.mem_singleton] at hy
        exact hnin (hy ▸ hx)⟩

/-- One filing-value upsert preserves composite-key uniqueness. -/
theorem upsertFV_keys (rows : List FVRow) (v : FilingValueRec)
    (hn : (fvKeys rows).Nodup) : (fvKeys (upsertFV rows v)).Nodup := by
  unfold upsertFV
  split
  · have hkeys : fvKeys (rows.map (fun r =>
        if r.filing_id == v.filing_id && r.field_id == v.field_id then
          { r with slots := v.slots } else r)) = fvKeys rows := by
      rw [fvKeys, List.map_map]
      apply List.map_congr_left
      intro r _
      by_cases h : r.filing_id == v.filing_id && r.field_id == v.field_id
      · simp only [Function.comp_apply, if_pos h]
      · simp only [Function.comp_apply, if_neg h]
    rw [hkeys]
    exact hn
  · rename_i hany
    have hnin : (v.filing_id, v.field_id) ∉ fvKeys rows := by
      intro hm
      rw [fvKeys, List.mem_map] at hm
      obtain ⟨r, hr, hre⟩ := hm
      simp only [Prod.mk.injEq] at hre
      exact hany (List.any_eq_true.mpr ⟨r, hr, by
        rw [Bool.and_eq_true, beq_iff_eq, beq_iff_eq]
        exact ⟨hre.1, hre.2⟩⟩)
    rw [fvKeys, List.map_append, List.nodup_append]
    exact ⟨hn, List.nodup_singleton _, by
      intro x hx hy
      simp only [List.map_cons, List.map_nil, List.mem_singleton] at hy
      exact hnin (hy ▸ hx)⟩

/-- Folding the single-row upserts of one batch preserves composite-key
uniqueness. -/
theorem upsertFV_fold_keys (batch : List FilingValueRec) :
    ∀ rows : List FVRow, (fvKeys rows).Nodup →
      (fvKeys (batch.foldl upsertFV rows)).Nodup := by
  induction batch with
  | nil => intro rows hn; exact hn
  | cons v vr ih =>
    intro rows hn
    rw [List.foldl_cons]
    exact ih (upsertFV rows v) (upsertFV_keys rows v hn)

/-- The batch-statement loop over the filing values preserves composite-key
uniqueness on success. -/
theorem fvChunksFold_keys (chunks : List (List FilingValueRec)) :
    ∀ rows rows' : List FVRow, fvChunksFold chunks rows = .ok rows' →
      (fvKeys rows).Nodup → (fvKeys rows').Nodup := by
  induction chunks with
  | nil =>
    intro rows rows' hok hn
    simp only [fvChunksFold, Except.ok.injEq] at hok
    subst hok
    exact hn
  | cons b bs ih =>
    intro rows rows' hok hn
    simp only [fvChunksFold] at hok
    rcases hb : fvBatchStep rows b with e | rows1
    · rw [hb] at hok
      exact absurd hok (by simp)
    · rw [hb] at hok
      have h1 : (fvKeys rows1).Nodup := by
        simp only [fvBatchStep] at hb
        split at hb
        · simp only [Except.ok.injEq] at hb
          subst hb
          exact upsertFV_fold_keys b rows hn
        · exact absurd hb (by simp)
      exact ih rows1 rows' hok h1

/-- `_load_filing_values` preserves composite-key uniqueness on success. -/
theorem loadFilingValues_keys (n : Nat) (incoming : List FilingValueRec)
    (rows rows' : List FVRow) (hok : loadFilingValues n rows incoming = .ok rows')
    (hn : (fvKeys rows).Nodup) : (fvKeys rows').Nodup :=
  fvChunksFold_keys (chunksOf n incoming) rows rows' hok hn

/-- A successful `_load_repeating_groups` touches neither organizations,
filings nor filing values. -/
theorem loadRG_frame (n : Nat) (store : Store) (groups : List RGroupRec)
    (gvals : List GroupValueRec) (st' : Store)
    (hok : loadRepeatingGroups n store groups gvals = .ok st') :
    st'.organizations = store.organizations ∧ st'.filings = store.filings ∧
    st'.filing_values = store.filing_values := by
  simp only [loadRepeatingGroups] at hok
  split at hok
  · simp only [Except.ok.injEq] at hok
    subst hok
    exact ⟨rfl, rfl, rfl⟩
  · rcases hm : rgvChunksFold (groups.foldl rgInsertStep (store, [])).2
        (chunksOf n gvals)
        (groups.foldl rgInsertStep (store, [])).1.repeating_group_values
        with e | rgv
    · rw [hm] at hok
      exact absurd hok (by simp)
    · rw [hm] at hok
      simp only [Except.ok.injEq] at hok
      subst hok
      show (groups.foldl rgInsertStep (store, [])).1.organizations =
          store.organizations ∧
        (groups.foldl rgInsertStep (store, [])).1.filings = store.filings ∧
        (groups.foldl rgInsertStep (store, [])).1.filing_values =
          store.filing_values
      rw [rgInsertFold_spec]
      exact ⟨rfl, rfl, rfl⟩

/-- Decomposition of a successful `_load_filing` transaction. -/
theorem loadFiling_spec (n : Nat) (store : Store) (pd : ProcessedData) (st' : Store)
    (hok : loadFiling n store pd = .ok st') :
    ∃ orgs filings fvs,
      loadOrganization store.organizations pd.organization = .ok orgs ∧
      loadFilingRecord store.filings pd.metadata = .ok filings ∧
      loadFilingValues n store.filing_values pd.filing_values = .ok fvs ∧
      st'.organizations = orgs ∧ st'.filings = filings ∧
      st'.filing_values = fvs := by
  unfold loadFiling at hok
  split at hok
  · exact absurd hok (by simp)
  · rcases horg : loadOrganization store.organizations pd.organization with e | orgs
    · rw [horg] at hok
      exact absurd hok (by simp)
    · rw [horg] at hok
      rcases hfil : loadFilingRecord store.filings pd.metadata with e | filings
      · rw [hfil] at hok
        exact absurd hok (by simp)
      · rw [hfil] at hok
        rcases hfv : loadFilingValues n store.filing_values pd.filing_values
            with e | fvs
        · rw [hfv] at hok
          exact absurd hok (by simp)
        · rw [hfv] at hok
          obtain ⟨ho, hf, hv⟩ := loadRG_frame n
            { store with organizations := orgs, filings := filings,
                         filing_values := fvs }
            pd.repeating_groups pd.group_values st' hok
          exact ⟨orgs, filings, fvs, rfl, rfl, rfl, ho, hf, hv⟩

/-- C4: loading the same transformed result twice is idempotent for entity
rows — afterwards the store holds exactly one Organization row for the
employer id and exactly one Filing row for the filing id, and FilingValue
rows, upserted on `(filing_id, field_id)` with last-write-wins semantics,
never contain duplicate composite keys. -/
theorem load_twice_idempotent_entities (n : Nat) (store : Store)
    (pd : ProcessedData) (st1 st2 : Store)
    (ho : (store.organizations.map OrgRow.ein).Nodup)
    (hf : (store.filings.map FilingRow.filing_id).Nodup)
    (hv : (fvKeys store.filing_values).Nodup)
    (h1 : loadFiling n store pd = .ok st1) (h2 : loadFiling n st1 pd = .ok st2) :
    (st2.organizations.filter (fun r => r.ein == pd.organization.ein)).length = 1 ∧
    (st2.filings.filter (fun r => r.filing_id == pd.metadata.filing_id)).length = 1 ∧
    (fvKeys st2.filing_values).Nodup := by
  obtain ⟨orgs1, fils1, fvs1, horg1, hfil1, hfv1, he1, hg1, hv1⟩ :=
    loadFiling_spec n store pd st1 h1
  obtain ⟨orgs2, fils2, fvs2, horg2, hfil2, hfv2, he2, hg2, hv2⟩ :=
    loadFiling_spec n st1 pd st2 h2
  obtain ⟨hon1, -⟩ := loadOrganization_spec store.organizations pd.organization
    orgs1 horg1 ho
  obtain ⟨hfn1, -⟩ := loadFilingRecord_spec store.filings pd.metadata fils1 hfil1 hf
  have hon1' : (st1.organizations.map OrgRow.ein).Nodup := by rw [he1]; exact hon1
  have hfn1' : (st1.filings.map FilingRow.filing_id).Nodup := by rw [hg1]; exact hfn1
  obtain ⟨hon2, hmem2⟩ := loadOrganization_spec st1.organizations pd.organization
    orgs2 horg2 hon1'
  obtain ⟨hfn2, hfmem2⟩ := loadFilingRecord_spec st1.filings pd.metadata fils2
    hfil2 hfn1'
  refine ⟨?_, ?_, ?_⟩
  · rw [he2]
    exact filter_singleton_of_nodup OrgRow.ein orgs2 pd.organization.ein hon2 hmem2
  · rw [hg2]
    exact filter_singleton_of_nodup FilingRow.filing_id fils2 pd.metadata.filing_id
      hfn2 hfmem2
  · rw [hv2]
    have hv1' : (fvKeys st1.filing_values).Nodup := by
      rw [hv1]
      exact loadFilingValues_keys n pd.filing_values store.filing_values fvs1
        hfv1 hv
    exact loadFilingValues_keys n pd.filing_values st1.filing_values fvs2
      hfv2 hv1'

/-- Witness for C4: loading `wPd` twice into the empty store with the
default batch size. -/
theorem load_twice_idempotent_entities_witness :
    (wStore1.organizations.filter (fun r => r.ein == wPd.organization.ein)).length = 1 ∧
    (wStore1.filings.filter (fun r => r.filing_id == wPd.metadata.filing_id)).length
      = 1 ∧
    (fvKeys wStore1.filing_values).Nodup :=
  load_twice_idempotent_entities 100 emptyStore wPd wStore1 wStore1
    (by decide) (by decide) (by decide) (by decide) (by decide)

/-! ## C1: repeating-group values and instance indices -/

/-- If a field id does not occur in the field list, the per-row emission
yields no record under that id. -/
theorem emit_filter_nil (el : XTree) (gid : Nat) (k : Nat) :
    ∀ fields : List FieldInfo, k ∉ fields.map FieldInfo.field_id →
      (fields.filterMap (fun fi =>
        match extractValueFromElement el fi.var_name with
        | some v => some (⟨gid, fi.field_id, convertValue v fi.data_type⟩ : GroupValueRec)
        | none => none)).filter (fun v => v.field_id == k) = [] := by
  intro fields hk
  rw [List.filter_eq_nil_iff]
  intro v hv hbe
  rw [List.mem_filterMap] at hv
  obtain ⟨fi, hfi, hemit⟩ := hv
  rw [beq_iff_eq] at hbe
  have hvid : v.field_id = fi.field_id := by
    rcases hx : extractValueFromElement el fi.var_name with - | val
    · rw [hx] at hemit
      exact absurd hemit (by simp)
    · rw [hx] at hemit
      simp only [Option.some.injEq] at hemit
      rw [← hemit]
  exact hk (hbe ▸ hvid ▸ List.mem_map_of_mem FieldInfo.field_id hfi)

/-- Per row element, a field with unique id emits exactly one value record
when extraction succeeds and none otherwise. -/
theorem emit_count (el : XTree) (gid : Nat) (fi : FieldInfo) :
    ∀ fields : List FieldInfo, fi ∈ fields → (fields.map FieldInfo.field_id).Nodup →
      ((fields.filterMap (fun f' =>
        match extractValueFromElement el f'.var_name with
        | some v => some (⟨gid, f'.field_id, convertValue v f'.data_type⟩ : GroupValueRec)
        | none => none)).filter (fun v => v.field_id == fi.field_id)).length =
      (if (extractValueFromElement el fi.var_name).isSome then 1 else 0) := by
  intro fields
  induction fields with
  | nil => intro h; cases h
  | cons f' fs ih =>
    intro hmem hnd
    simp only [List.map_cons, List.nodup_cons] at hnd
    obtain ⟨hnin, hnd'⟩ := hnd
    rcases List.mem_cons.mp hmem with he | hm
    · subst he
      rw [List.filterMap_cons]
      rcases hx : extractValueFromElement el fi.var_name with - | val
      · simp only [hx]
        rw [emit_filter_nil el gid fi.field_id fs hnin]
        rfl
      · simp only [hx]
        rw [List.filter_cons_of_pos (by simp)]
        rw [emit_filter_nil el gid fi.field_id fs hnin]
        rfl
    · have hne : f'.field_id ≠ fi.field_id := by
        intro he
        exact hnin (he ▸ List.mem_map_of_mem FieldInfo.field_id hm)
      rw [List.filterMap_cons]
      rcases hx : extractValueFromElement el f'.var_name with - | val
      · exact ih hm hnd'
      · rw [List.filter_cons_of_neg (by simpa using hne)]
        exact ih hm hnd'

/-- One repeating-group-value upsert preserves composite-key uniqueness. -/
theorem upsertRGV_keys (rows : List RGVRow) (g fid : Nat) (s : SlotVals)
    (hn : (rgvKeys rows).Nodup) : (rgvKeys (upsertRGV rows g fid s)).Nodup := by
  unfold upsertRGV
  split
  · have hkeys : rgvKeys (rows.map (fun r =>
        if r.group_id == g && r.field_id == fid then { r with slots := s } else r)) =
        rgvKeys rows := by
      rw [rgvKeys, List.map_map]
      apply List.map_congr_left
      intro r _
      by_cases h : r.group_id == g && r.field_id == fid
      · simp only [Function.comp_apply, if_pos h]
      · simp only [Function.comp_apply, if_neg h]
    rw [hkeys]
    exact hn
  · rename_i hany
    have hnin : (g, fid) ∉ rgvKeys rows := by
      intro hm
      rw [rgvKeys, List.mem_map] at hm
      obtain ⟨r, hr, hre⟩ := hm
      simp only [Prod.mk.injEq] at hre
      exact hany (List.any_eq_true.mpr ⟨r, hr, by
        rw [Bool.and_eq_true, beq_iff_eq, beq_iff_eq]
        exact ⟨hre.1, hre.2⟩⟩)
    rw [rgvKeys, List.map_append, List.nodup_append]
    exact ⟨hn, List.nodup_singleton _, by
      intro x hx hy
      simp only [List.map_cons, List.map_nil, List.mem_singleton] at hy
      exact hnin (hy ▸ hx)⟩

/-- A key-unique value table with no row under `(g, fid)` filters to nothing
under that key. -/
theorem rgv_filter_nil (g fid : Nat) (rs : List RGVRow)
    (hno : (g, fid) ∉ rgvKeys rs) :
    rs.filter (fun r => r.group_id == g && r.field_id == fid) = [] := by
  rw [List.filter_eq_nil_iff]
  intro r hr hb
  rw [Bool.and_eq_true, beq_iff_eq, beq_iff_eq] at hb
  exact hno (by
    rw [rgvKeys, List.mem_map]
    exact ⟨r, hr, by rw [hb.1, hb.2]⟩)

/-- The UPDATE arm of the repeating-group-value upsert: on a key-unique
table containing a row under `(g, fid)`, the updated table filters to
exactly the replaced row. -/
theorem map_upsert_filter (g fid : Nat) (s : SlotVals) :
    ∀ rows : List RGVRow, (rgvKeys rows).Nodup →
      (∃ r0 ∈ rows, (r0.group_id == g && r0.field_id == fid) = true) →
      ((rows.map (fun r => if r.group_id == g && r.field_id == fid then
          { r with slots := s } else r)).filter
        (fun r => r.group_id == g && r.field_id == fid)) = [⟨g, fid, s⟩] := by
  intro rows
  induction rows with
  | nil => rintro - ⟨r0, hr0, -⟩; cases hr0
  | cons r rs ih =>
    rintro hn ⟨r0, hr0, hb0⟩
    rw [rgvKeys, List.map_cons, List.nodup_cons] at hn
    obtain ⟨hrn, hn'⟩ := hn
    rw [List.map_cons]
    by_cases h : (r.group_id == g && r.field_id == fid) = true
    · have h' := h
      rw [Bool.and_eq_true, beq_iff_eq, beq_iff_eq] at h'
      rw [if_pos h, List.filter_cons_of_pos (by
        show (({ r with slots := s } : RGVRow).group_id == g
          && ({ r with slots := s } : RGVRow).field_id == fid) = true
        rw [Bool.and_eq_true, beq_iff_eq, beq_iff_eq]
        exact ⟨h'.1, h'.2⟩)]
      have hkeyr : ((r.group_id, r.field_id) : Nat × Nat) = (g, fid) := by
        rw [h'.1, h'.2]
      have htail : (g, fid) ∉ rgvKeys rs := by
        intro hm
        rw [hkeyr] at hrn
        exact hrn hm
      have hmapid : rs.map (fun q => if q.group_id == g && q.field_id == fid then
          { q with slots := s } else q) = rs := by
        have hcong : ∀ q ∈ rs, (if q.group_id == g && q.field_id == fid then
            ({ q with slots := s } : RGVRow) else q) = id q := by
          intro q hq
          have hnc : ¬ ((q.group_id == g && q.field_id == fid) = true) := by
            intro hqb
            rw [Bool.and_eq_true, beq_iff_eq, beq_iff_eq] at hqb
            apply htail
            rw [rgvKeys, List.mem_map]
            exact ⟨q, hq, by rw [hqb.1, hqb.2]⟩
          rw [if_neg hnc]
          rfl
        rw [List.map_congr_left hcong, List.map_id]
      rw [hmapid, rgv_filter_nil g fid rs htail]
      obtain ⟨rg, rf, rsl⟩ := r
      simp only at h'
      rw [h'.1, h'.2]
    · rw [if_neg h, List.filter_cons_of_neg (by simpa using h)]
      apply ih hn'
      rcases List.mem_cons.mp hr0 with he | hm
      · exact absurd (he ▸ hb0) h
      · exact ⟨r0, hm, hb0⟩

/-- After one repeating-group-value upsert on a key-unique table, the rows
under the upserted key are exactly the one new row. -/
theorem upsertRGV_filter (rows : List RGVRow) (g fid : Nat) (s : SlotVals)
    (hn : (rgvKeys rows).Nodup) :
    (upsertRGV rows g fid s).filter (fun r => r.group_id == g && r.field_id == fid) =
      [⟨g, fid, s⟩] := by
  unfold upsertRGV
  split
  · rename_i hany
    rw [List.any_eq_true] at hany
    exact map_upsert_filter g fid s rows hn hany
  · rename_i hany
    have hnin : (g, fid) ∉ rgvKeys rows := by
      intro hm
      rw [rgvKeys, List.mem_map] at hm
      obtain ⟨r, hr, hre⟩ := hm
      simp only [Prod.mk.injEq] at hre
      exact hany (List.any_eq_true.mpr ⟨r, hr, by
        rw [Bool.and_eq_true, beq_iff_eq, beq_iff_eq]
        exact ⟨hre.1, hre.2⟩⟩)
    rw [List.filter_append, rgv_filter_nil g fid rows hnin,
      List.filter_cons_of_pos (by simp), List.filter_nil]
    rfl

/-- Folding the single-row upserts of one prepared batch preserves
composite-key uniqueness. -/
theorem upsertRGV_fold_keys (bv : List (Nat × Nat × SlotVals)) :
    ∀ rows : List RGVRow, (rgvKeys rows).Nodup →
      (rgvKeys (bv.foldl (fun rs t => upsertRGV rs t.1 t.2.1 t.2.2) rows)).Nodup := by
  induction bv with
  | nil => intro rows hn; exact hn
  | cons t tr ih =>
    intro rows hn
    rw [List.foldl_cons]
    exact ih _ (upsertRGV_keys rows t.1 t.2.1 t.2.2 hn)

/-- The batch-statement loop over the group values preserves composite-key
uniqueness on success. -/
theorem rgvChunksFold_keys (m : List (Nat × Nat))
    (chunks : List (List GroupValueRec)) :
    ∀ rows rows' : List RGVRow, rgvChunksFold m chunks rows = .ok rows' →
      (rgvKeys rows).Nodup → (rgvKeys rows').Nodup := by
  induction chunks with
  | nil =>
    intro rows rows' hok hn
    simp only [rgvChunksFold, Except.ok.injEq] at hok
    subst hok
    exact hn
  | cons b bs ih =>
    intro rows rows' hok hn
    simp only [rgvChunksFold] at hok
    rcases hb : rgvBatchStep m rows b with e | rows1
    · rw [hb] at hok
      exact absurd hok (by simp)
    · rw [hb] at hok
      have h1 : (rgvKeys rows1).Nodup := by
        simp only [rgvBatchStep] at hb
        split at hb
        · simp only [Except.ok.injEq] at hb
          subst hb
          exact hn
        · split at hb
          · simp only [Except.ok.injEq] at hb
            subst hb
            exact upsertRGV_fold_keys _ rows hn
          · exact absurd hb (by simp)
      exact ih rows1 rows' hok h1

/-- A nonempty list that fits within one batch: the auxiliary slicer yields
the single batch. -/
theorem chunksAux_of_short {α : Type} (n : Nat) :
    ∀ (xs cur : List α) (k : Nat), xs.length ≤ k → cur ≠ [] →
      chunksAux n xs cur k = [cur.reverse ++ xs] := by
  intro xs
  induction xs with
  | nil =>
    intro cur k hlen hcur
    simp only [chunksAux]
    rw [if_neg (by simpa [List.isEmpty_iff] using hcur)]
    simp
  | cons y ys ih =>
    intro cur k hlen hcur
    rcases k with - | k'
    · exact absurd hlen (by simp)
    · show chunksAux n ys (y :: cur) k' = [cur.reverse ++ y :: ys]
      rw [ih (y :: cur) k' (by simpa using hlen) (by simp)]
      simp

/-- A nonempty list whose length is at most the batch size forms a single
batch. -/
theorem chunksOf_single {α : Type} (n : Nat) (l : List α) (hne : l ≠ [])
    (hlen : l.length ≤ n) : chunksOf n l = [l] := by
  rcases l with - | ⟨x, xs⟩
  · exact absurd rfl hne
  · show chunksAux n xs [x] (n - 1) = [x :: xs]
    rw [chunksAux_of_short n xs [x] (n - 1)
      (by simp only [List.length_cons] at hlen; omega) (by simp)]
    simp

/-- With an empty id map every value is skipped and the prepared batch is
empty. -/
theorem rgvBatchValues_nil (batch : List GroupValueRec) :
    rgvBatchValues [] batch = [] := by
  induction batch with
  | nil => rfl
  | cons v vr ih => exact ih

/-- A batch whose prepared rows repeat a composite key makes its statement
raise the cardinality violation, aborting the loop. -/
theorem rgvChunksFold_dup_error (m : List (Nat × Nat))
    (batch : List GroupValueRec) (rows : List RGVRow)
    (hdup : ¬ ((rgvBatchValues m batch).map (fun t => (t.1, t.2.1))).Nodup) :
    rgvChunksFold m [batch] rows =
      .error "ON CONFLICT DO UPDATE command cannot affect row a second time" := by
  have hbne : ¬ ((rgvBatchValues m batch).isEmpty = true) := by
    intro hb
    rw [List.isEmpty_iff] at hb
    rw [hb] at hdup
    exact hdup (by simp)
  have hstep : rgvBatchStep m rows batch =
      .error "ON CONFLICT DO UPDATE command cannot affect row a second time" := by
    simp only [rgvBatchStep]
    rw [if_neg hbne, if_neg hdup]
  show ((match rgvBatchStep m rows batch with
    | Except.error e => Except.error e
    | Except.ok rows' => rgvChunksFold m [] rows') :
      Except String (List RGVRow)) =
    .error "ON CONFLICT DO UPDATE command cannot affect row a second time"
  rw [hstep]

/-- C1 (amended): the transformer emits repeating-group value rows carrying
only a transform-local `group_id`, a `field_id` and the typed slots — no
instance index exists anywhere in the produced rows — and emits, for a group
with several rows, one record per row per extracted field, all colliding on
the same `(group_id, field_id)` key; the loader writes RepeatingGroupValue
in multi-row upsert statements keyed on `(group_id, field_id)` (so stored
composite keys stay unique on success), and a batch whose prepared rows
repeat that key — as the colliding records of a multi-row group do when they
fall in one batch — makes its statement raise the PostgreSQL cardinality
violation, aborting the document's load instead of storing indexed rows. -/
theorem group_values_upsert_key_no_instance_index :
    (∀ (fields : List FieldInfo) (gid : Nat) (fi : FieldInfo) (els : List XTree),
      fi ∈ fields → (fields.map FieldInfo.field_id).Nodup →
      ((processGroupRows fields gid els).filter
        (fun v => v.field_id == fi.field_id)).length =
      els.countP (fun el => (extractValueFromElement el fi.var_name).isSome)) ∧
    (∀ (fields : List FieldInfo) (gid : Nat) (els : List XTree) (v : GroupValueRec),
      v ∈ processGroupRows fields gid els → v.group_id = gid) ∧
    (∀ (n : Nat) (store : Store) (groups : List RGroupRec)
        (gvals : List GroupValueRec) (st' : Store),
      (rgvKeys store.repeating_group_values).Nodup →
      loadRepeatingGroups n store groups gvals = .ok st' →
      (rgvKeys st'.repeating_group_values).Nodup) ∧
    (∀ (n : Nat) (store : Store) (groups : List RGroupRec)
        (gvals : List GroupValueRec),
      gvals ≠ [] → gvals.length ≤ n →
      ¬ ((rgvBatchValues (mkIdMap store.next_group_id [] groups) gvals).map
          (fun t => (t.1, t.2.1))).Nodup →
      loadRepeatingGroups n store groups gvals =
        .error "ON CONFLICT DO UPDATE command cannot affect row a second time") := by
  refine ⟨?_, ?_, ?_, ?_⟩
  · intro fields gid fi els hfi hnd
    induction els with
    | nil => rfl
    | cons el rest ih =>
      rw [processGroupRows, List.flatMap_cons, List.filter_append, List.length_append,
        ← processGroupRows, ih, List.countP_cons]
      rw [emit_count el gid fi fields hfi hnd]
      by_cases hx : (extractValueFromElement el fi.var_name).isSome
      · omega
      · omega
  · intro fields gid els v hv
    rw [processGroupRows, List.mem_flatMap] at hv
    obtain ⟨el, -, hv⟩ := hv
    rw [List.mem_filterMap] at hv
    obtain ⟨fi, -, hemit⟩ := hv
    rcases hx : extractValueFromElement el fi.var_name with - | val
    · rw [hx] at hemit
      exact absurd hemit (by simp)
    · rw [hx] at hemit
      simp only [Option.some.injEq] at hemit
      rw [← hemit]
  · intro n store groups gvals st' hn hok
    simp only [loadRepeatingGroups] at hok
    split at hok
    · simp only [Except.ok.injEq] at hok
      subst hok
      exact hn
    · rcases hm : rgvChunksFold (groups.foldl rgInsertStep (store, [])).2
          (chunksOf n gvals)
          (groups.foldl rgInsertStep (store, [])).1.repeating_group_values
          with e | rgv
      · rw [hm] at hok
        exact absurd hok (by simp)
      · rw [hm] at hok
        simp only [Except.ok.injEq] at hok
        subst hok
        show (rgvKeys rgv).Nodup
        refine rgvChunksFold_keys _ _ _ _ hm ?_
        show (rgvKeys
          ((groups.foldl rgInsertStep (store, [])).1.repeating_group_values)).Nodup
        rw [rgInsertFold_spec]
        exact hn
  · intro n store groups gvals hne hlen hdup
    have hgne : groups.isEmpty = false := by
      rcases groups with - | ⟨g, gr⟩
      · refine absurd ?_ hdup
        rw [show mkIdMap store.next_group_id [] ([] : List RGroupRec) = []
            from rfl, rgvBatchValues_nil]
        simp
      · rfl
    have hmap2 : (groups.foldl rgInsertStep (store, [])).2 =
        mkIdMap store.next_group_id [] groups := by
      rw [rgInsertFold_spec]
    simp only [loadRepeatingGroups]
    rw [if_neg (by simp [hgne])]
    rw [chunksOf_single n gvals hne hlen, hmap2,
      rgvChunksFold_dup_error _ gvals _ hdup]

/-- Counterexample to C1 as stated: transforming `wDoc` (one repeating group
with two rows, each carrying a `PersonNm` value) emits two value records
with the *same* key `(group_id 1, field_id 5)` and no instance index;
loading places both records in one multi-row upsert statement, which raises
the PostgreSQL cardinality violation, so the document's transaction rolls
back with an error and **no** value rows are stored — in particular not two
rows with instance indices 0 and 1. -/
theorem two_rows_batch_error_cex :
    (processRepeatingGroups wState wDoc "f").2.1.map
        (fun v => (v.group_id, v.field_id)) = [(1, 5), (1, 5)] ∧
    loadRepeatingGroups 100 emptyStore (processRepeatingGroups wState wDoc "f").1
        (processRepeatingGroups wState wDoc "f").2.1 =
      .error "ON CONFLICT DO UPDATE command cannot affect row a second time" ∧
    ((processXmlFile wState wDoc "doc.xml").1.map
        (fun pd => isErrorE (loadFiling 100 emptyStore pd))) = some true :=
  ⟨by decide, by decide, by decide⟩

/-- Witness for the amended C1 at concrete fields, a successful single-value
load and a colliding two-value batch. -/
theorem group_values_upsert_key_no_instance_index_witness :
    ((processGroupRows wGFields 1 wGEls).filter (fun v => v.field_id == 5)).length =
      wGEls.countP (fun el => (extractValueFromElement el "PersonNm").isSome) ∧
    (rgvKeys ((⟨[], [], [], [⟨1, "f", none, "A", "/a"⟩],
        [⟨1, 5, ⟨some "x", none, none, none⟩⟩], 2⟩ :
        Store).repeating_group_values)).Nodup ∧
    loadRepeatingGroups 100 emptyStore [⟨1, "f", "A", "/a", none⟩]
        [⟨1, 5, ⟨some "Alice", none, none, none⟩⟩,
         ⟨1, 5, ⟨some "Bob", none, none, none⟩⟩] =
      .error "ON CONFLICT DO UPDATE command cannot affect row a second time" :=
  ⟨group_values_upsert_key_no_instance_index.1 wGFields 1
      ⟨"PersonNm", 5, "./PersonNm", "text"⟩ wGEls (by decide) (by decide),
   group_values_upsert_key_no_instance_index.2.2.1 100 emptyStore
      [⟨1, "f", "A", "/a", none⟩] [⟨1, 5, ⟨some "x", none, none, none⟩⟩]
      ⟨[], [], [], [⟨1, "f", none, "A", "/a"⟩],
        [⟨1, 5, ⟨some "x", none, none, none⟩⟩], 2⟩
      (by decide) (by decide),
   group_values_upsert_key_no_instance_index.2.2.2 100 emptyStore
      [⟨1, "f", "A", "/a", none⟩]
      [⟨1, 5, ⟨some "Alice", none, none, none⟩⟩,
       ⟨1, 5, ⟨some "Bob", none, none, none⟩⟩]
      (by decide) (by decide) (by decide)⟩

end Blizzard
